import Mathlib

/-!
Shallow embedding of the storage-tracker core tree engine
(`src/Item.js`, `src/Box.js`, `src/StorageTracker.js`).

Modelling conventions:
* JS numbers are embedded as `Rat` (the financial counters and the derived
  division behave exactly).
* `Date.now()` / `new Date().toISOString()` are threaded explicitly as a
  `Clock` value (`ms` is the `Date.now()` reading used by `generateId`,
  `iso` the ISO timestamp string used for `createdAt` / `updatedAt`).
* In-place mutation of a node found by id becomes functional replacement of
  the first node in depth-first order carrying that id, which is where the
  JS object reference points.
* `throw new Error(msg)` becomes an `Except` error value; errors are
  classified by the taxonomy of the specification
  (`ValidationError` / `NotFoundError` / `InvalidOperationError`); each
  operation returns the (possibly partially mutated) tracker next to the
  result, so that state left behind by a throwing call is observable.
* JS truthiness tests on an optional string argument (`if (parentBoxId)`)
  are embedded by `truthy`, which is false for `none` and for the empty
  string.
-/

/-- The two clock readings a mutating call can take: `ms` models `Date.now()`,
`iso` models `new Date().toISOString()`. -/
structure Clock where
  ms : Nat
  iso : String
deriving DecidableEq, Repr

/-- JS `a || b` for strings: the empty string is falsy. -/
def jsOrS (s dflt : String) : String := if s = "" then dflt else s

/-- JS `a || b` for numbers: `0` is falsy. -/
def jsOrQ (q dflt : Rat) : Rat := if q = 0 then dflt else q

/-- JS `a || b` for the integer `nextId` counter: `0` is falsy. -/
def jsOrN (n dflt : Nat) : Nat := if n = 0 then dflt else n

/-- JS truthiness of an optional string parameter: `null`/`undefined` and the
empty string are falsy. -/
def truthy : Option String → Bool
  | none => false
  | some s => !(s == "")

/-- Item from `src/Item.js`: leaf entity with financial counters. -/
structure Item where
  id : String
  name : String
  description : String
  boughtAmount : Rat
  boughtPrice : Rat
  soldAmount : Rat
  soldPrice : Rat
  createdAt : String
  updatedAt : String
deriving DecidableEq, Repr

/-- The `Item` constructor: financial counters start at 0, both timestamps
are taken from the clock. -/
def Item.new (id name description : String) (clk : Clock) : Item :=
  ⟨id, name, description, 0, 0, 0, 0, clk.iso, clk.iso⟩

/-- Partial-update payload for `Item.update` (a JS object whose fields may be
`undefined`). -/
structure ItemUpdates where
  name : Option String := none
  description : Option String := none
  boughtAmount : Option Rat := none
  boughtPrice : Option Rat := none
  soldAmount : Option Rat := none
  soldPrice : Option Rat := none
deriving DecidableEq, Repr

/-- `Item.prototype.update`: apply every field that is present, refresh
`updatedAt`. -/
def Item.update (it : Item) (u : ItemUpdates) (clk : Clock) : Item :=
  { it with
    name := u.name.getD it.name
    description := u.description.getD it.description
    boughtAmount := u.boughtAmount.getD it.boughtAmount
    boughtPrice := u.boughtPrice.getD it.boughtPrice
    soldAmount := u.soldAmount.getD it.soldAmount
    soldPrice := u.soldPrice.getD it.soldPrice
    updatedAt := clk.iso }

/-- `Item.prototype.getAverageSoldPrice`: 0 when nothing was sold, else
`soldPrice / soldAmount`. -/
def Item.getAverageSoldPrice (it : Item) : Rat :=
  if it.soldAmount = 0 then 0 else it.soldPrice / it.soldAmount

/-- `Item.prototype.getProfitLoss`: `soldPrice - boughtAmount * boughtPrice`. -/
def Item.getProfitLoss (it : Item) : Rat :=
  it.soldPrice - it.boughtAmount * it.boughtPrice

/-- The plain object produced by `Item.prototype.toJSON`. -/
structure ItemJSON where
  id : String
  name : String
  description : String
  boughtAmount : Rat
  boughtPrice : Rat
  soldAmount : Rat
  soldPrice : Rat
  averageSoldPrice : Rat
  profitLoss : Rat
  createdAt : String
  updatedAt : String
deriving DecidableEq, Repr

/-- `Item.prototype.toJSON`: stored fields plus the two derived metrics
computed at serialization time. -/
def Item.toJSON (it : Item) : ItemJSON :=
  ⟨it.id, it.name, it.description, it.boughtAmount, it.boughtPrice,
   it.soldAmount, it.soldPrice, it.getAverageSoldPrice, it.getProfitLoss,
   it.createdAt, it.updatedAt⟩

/-- `Item.fromJSON`: rebuild an item; numeric fields default through `|| 0`,
timestamps through `|| new Date().toISOString()`; the two derived fields of
the document are ignored. -/
def Item.fromJSON (d : ItemJSON) (clk : Clock) : Item :=
  { id := d.id
    name := d.name
    description := d.description
    boughtAmount := jsOrQ d.boughtAmount 0
    boughtPrice := jsOrQ d.boughtPrice 0
    soldAmount := jsOrQ d.soldAmount 0
    soldPrice := jsOrQ d.soldPrice 0
    createdAt := jsOrS d.createdAt clk.iso
    updatedAt := jsOrS d.updatedAt clk.iso }

/-- Box from `src/Box.js`: a container holding nested boxes and items. -/
inductive Box where
  | mk (id name description : String) (boxes : List Box) (items : List Item)
       (createdAt updatedAt : String)

/-- Identifier of a box. -/
def Box.id : Box → String
  | .mk i _ _ _ _ _ _ => i

/-- Name of a box. -/
def Box.name : Box → String
  | .mk _ n _ _ _ _ _ => n

/-- Description of a box. -/
def Box.description : Box → String
  | .mk _ _ d _ _ _ _ => d

/-- Nested boxes of a box. -/
def Box.boxes : Box → List Box
  | .mk _ _ _ bs _ _ _ => bs

/-- Items directly inside a box. -/
def Box.items : Box → List Item
  | .mk _ _ _ _ its _ _ => its

/-- Creation timestamp of a box. -/
def Box.createdAt : Box → String
  | .mk _ _ _ _ _ c _ => c

/-- Last-update timestamp of a box. -/
def Box.updatedAt : Box → String
  | .mk _ _ _ _ _ _ u => u

/-- Partial-update payload for `Box.prototype.update`. -/
structure BoxUpdates where
  name : Option String := none
  description : Option String := none
deriving DecidableEq, Repr

/-- `Box.prototype.update`: apply the present fields among name/description
and refresh `updatedAt`. -/
def Box.update : Box → BoxUpdates → Clock → Box
  | .mk i n d bs its c _, u, clk =>
      .mk i (u.name.getD n) (u.description.getD d) bs its c clk.iso

/-- `Box.prototype.addBox`: append a nested box, refresh `updatedAt`. -/
def Box.addBox : Box → Box → Clock → Box
  | .mk i n d bs its c _, child, clk => .mk i n d (bs ++ [child]) its c clk.iso

/-- `Box.prototype.addItem`: append an item, refresh `updatedAt`. -/
def Box.addItem : Box → Item → Clock → Box
  | .mk i n d bs its c _, item, clk => .mk i n d bs (its ++ [item]) c clk.iso

/-- Splice out the first box with the given id from a list
(`findIndex` + `splice` in `Box.prototype.removeBox`); `none` when absent. -/
def eraseFirstBoxById : List Box → String → Option (List Box)
  | [], _ => none
  | b :: rest, boxId =>
    if b.id = boxId then some rest
    else (fun r => b :: r) <$> eraseFirstBoxById rest boxId

/-- Splice out the first item with the given id from a list
(`findIndex` + `splice` in `Box.prototype.removeItem`); `none` when absent. -/
def eraseFirstItemById : List Item → String → Option (List Item)
  | [], _ => none
  | it :: rest, itemId =>
    if it.id = itemId then some rest
    else (fun r => it :: r) <$> eraseFirstItemById rest itemId

/-- `Box.prototype.removeBox`: remove the direct child box with the given id;
`some` of the updated box (with fresh `updatedAt`) on success, `none` when no
direct child matches (the JS method returns `false` and leaves the box
untouched). -/
def Box.removeBox : Box → String → Clock → Option Box
  | .mk i n d bs its c _u, boxId, clk =>
    match eraseFirstBoxById bs boxId with
    | some bs2 => some (.mk i n d bs2 its c clk.iso)
    | none => none

/-- `Box.prototype.removeItem`: remove the direct item with the given id;
`some` of the updated box on success. -/
def Box.removeItem : Box → String → Clock → Option Box
  | .mk i n d bs its c _u, itemId, clk =>
    match eraseFirstItemById its itemId with
    | some its2 => some (.mk i n d bs its2 c clk.iso)
    | none => none

/-- `Box.prototype.findBox` lifted over a list of boxes: return the first
successful recursive lookup (`for (const box of ...) { const found =
box.findBox(boxId); if (found) return found; }`).  For a single box the
lookup checks the box itself first and then descends into its children in
order. -/
def findBoxF : List Box → String → Option Box
  | [], _ => none
  | Box.mk i n d bs its c u :: rest, boxId =>
    if i = boxId then some (Box.mk i n d bs its c u)
    else
      match findBoxF bs boxId with
      | some r => some r
      | none => findBoxF rest boxId

/-- `Box.prototype.findBox`: self-match short-circuits, then the children are
searched depth-first in order. -/
def Box.findBox (b : Box) (boxId : String) : Option Box := findBoxF [b] boxId

/-- `Box.prototype.findItem` lifted over a list of boxes: each box checks its
direct items first and then recurses into its child boxes in order. -/
def findItemF : List Box → String → Option Item
  | [], _ => none
  | Box.mk _ _ _ bs its _ _ :: rest, itemId =>
    match its.find? (fun i => i.id == itemId) with
    | some it => some it
    | none =>
      match findItemF bs itemId with
      | some r => some r
      | none => findItemF rest itemId

/-- `Box.prototype.findItem` on a single box. -/
def Box.findItem (b : Box) (itemId : String) : Option Item := findItemF [b] itemId

/-- `Box.prototype.getTotalItemCount` summed over a list of boxes: direct item
count plus the recursive count of every child box. -/
def totalItemCountF : List Box → Nat
  | [] => 0
  | Box.mk _ _ _ bs its _ _ :: rest =>
    (its.length + totalItemCountF bs) + totalItemCountF rest

/-- `Box.prototype.getTotalItemCount` of a single box. -/
def Box.getTotalItemCount (b : Box) : Nat := totalItemCountF [b]

/-- The plain object produced by `Box.prototype.toJSON`. -/
inductive BoxJSON where
  | mk (id name description : String) (boxes : List BoxJSON)
       (items : List ItemJSON) (totalItems : Nat) (createdAt updatedAt : String)

/-- Serialized nested boxes of a serialized box. -/
def BoxJSON.boxes : BoxJSON → List BoxJSON
  | .mk _ _ _ bs _ _ _ _ => bs

/-- Serialized `totalItems` derived field. -/
def BoxJSON.totalItems : BoxJSON → Nat
  | .mk _ _ _ _ _ t _ _ => t

/-- `Box.prototype.toJSON` mapped over a list of boxes: descriptive fields,
recursively serialized children, serialized items, and the derived
`totalItems` computed at serialization time. -/
def toJSONF : List Box → List BoxJSON
  | [] => []
  | Box.mk i n d bs its c u :: rest =>
    BoxJSON.mk i n d (toJSONF bs) (its.map Item.toJSON)
      (its.length + totalItemCountF bs) c u :: toJSONF rest

/-- `Box.fromJSON` mapped over a list of serialized boxes: rebuild each box
depth-first; `description` is passed through the constructor, timestamps
default through `|| now`, the stored `totalItems` derived field is ignored. -/
def boxFromJSONF : List BoxJSON → Clock → List Box
  | [], _ => []
  | BoxJSON.mk i n d bs its _ c u :: rest, clk =>
    Box.mk i n d (boxFromJSONF bs clk) (its.map (fun j => Item.fromJSON j clk))
      (jsOrS c clk.iso) (jsOrS u clk.iso) :: boxFromJSONF rest clk

/-- StorageTracker state from `src/StorageTracker.js`: the forest of root
boxes and the monotonically incremented id counter (`dataPath`, used only by
the file-system side of `save`/`load`, is not part of the in-memory model). -/
structure StorageTracker where
  rootBoxes : List Box
  nextId : Nat

/-- Error taxonomy of the specification, carrying the JS `Error` message. -/
inductive TrackerError where
  | validation (msg : String)
  | notFound (msg : String)
  | invalidOperation (msg : String)
deriving DecidableEq, Repr

/-- The id string `Date.now() + "-" + nextId` built by
`StorageTracker.prototype.generateId`. -/
def generatedId (ms n : Nat) : String :=
  Nat.repr ms ++ "-" ++ Nat.repr n

/-- `StorageTracker.prototype.generateId`: produce the id and the tracker with
the counter incremented. -/
def StorageTracker.generateId (t : StorageTracker) (clk : Clock) :
    String × StorageTracker :=
  (generatedId clk.ms t.nextId, { t with nextId := t.nextId + 1 })

/-- Attach a box as a new child of the first box (in the depth-first order of
`findBox`) carrying the given id: the pure counterpart of
`parentBox.addBox(box)` on the node returned by `findBox`.  Returns `none`
when no box with that id exists. -/
def addBoxAtF : List Box → String → Box → Clock → Option (List Box)
  | [], _, _, _ => none
  | Box.mk i n d bs its c u :: rest, pid, child, clk =>
    if i = pid then some (Box.mk i n d (bs ++ [child]) its c clk.iso :: rest)
    else
      match addBoxAtF bs pid child clk with
      | some bs2 => some (Box.mk i n d bs2 its c u :: rest)
      | none =>
        match addBoxAtF rest pid child clk with
        | some rest2 => some (Box.mk i n d bs its c u :: rest2)
        | none => none

/-- Attach an item to the first box (depth-first) carrying the given id: the
pure counterpart of `box.addItem(item)` on the node returned by `findBox`. -/
def addItemAtF : List Box → String → Item → Clock → Option (List Box)
  | [], _, _, _ => none
  | Box.mk i n d bs its c u :: rest, pid, item, clk =>
    if i = pid then some (Box.mk i n d bs (its ++ [item]) c clk.iso :: rest)
    else
      match addItemAtF bs pid item clk with
      | some bs2 => some (Box.mk i n d bs2 its c u :: rest)
      | none =>
        match addItemAtF rest pid item clk with
        | some rest2 => some (Box.mk i n d bs its c u :: rest2)
        | none => none

/-- Apply `Box.prototype.update` to the first box (depth-first) carrying the
given id: the pure counterpart of mutating the node returned by `findBox`. -/
def updateBoxAtF : List Box → String → BoxUpdates → Clock → Option (List Box)
  | [], _, _, _ => none
  | Box.mk i n d bs its c u :: rest, boxId, upd, clk =>
    if i = boxId then some (Box.update (Box.mk i n d bs its c u) upd clk :: rest)
    else
      match updateBoxAtF bs boxId upd clk with
      | some bs2 => some (Box.mk i n d bs2 its c u :: rest)
      | none =>
        match updateBoxAtF rest boxId upd clk with
        | some rest2 => some (Box.mk i n d bs its c u :: rest2)
        | none => none

/-- Update of the first item of a list carrying the given id, leaving the
rest untouched. -/
def updateFirstItem : List Item → String → ItemUpdates → Clock → List Item
  | [], _, _, _ => []
  | it :: rest, itemId, upd, clk =>
    if it.id = itemId then it.update upd clk :: rest
    else it :: updateFirstItem rest itemId upd clk

/-- Apply `Item.prototype.update` to the first item (in the order of
`findItem`) carrying the given id. -/
def updateItemAtF : List Box → String → ItemUpdates → Clock → Option (List Box)
  | [], _, _, _ => none
  | Box.mk i n d bs its c u :: rest, itemId, upd, clk =>
    if its.any (fun it => it.id == itemId) then
      some (Box.mk i n d bs (updateFirstItem its itemId upd clk) c u :: rest)
    else
      match updateItemAtF bs itemId upd clk with
      | some bs2 => some (Box.mk i n d bs2 its c u :: rest)
      | none =>
        match updateItemAtF rest itemId upd clk with
        | some rest2 => some (Box.mk i n d bs its c u :: rest2)
        | none => none

/-- `StorageTracker.prototype._removeBoxRecursive` expressed over a list of
boxes: for each box in order, first try to splice the target out of its
direct children (`box.removeBox`), then recurse into its subtree, then move
on to the next box.  Returns the updated list on success. -/
def removeBoxRecF : List Box → String → Clock → Option (List Box)
  | [], _, _ => none
  | Box.mk i n d bs its c u :: rest, boxId, clk =>
    match Box.removeBox (Box.mk i n d bs its c u) boxId clk with
    | some b2 => some (b2 :: rest)
    | none =>
      match removeBoxRecF bs boxId clk with
      | some bs2 => some (Box.mk i n d bs2 its c u :: rest)
      | none =>
        match removeBoxRecF rest boxId clk with
        | some rest2 => some (Box.mk i n d bs its c u :: rest2)
        | none => none

/-- `StorageTracker.prototype._removeItemRecursive` expressed over a list of
boxes, in the same shape as `removeBoxRecF`. -/
def removeItemRecF : List Box → String → Clock → Option (List Box)
  | [], _, _ => none
  | Box.mk i n d bs its c u :: rest, itemId, clk =>
    match Box.removeItem (Box.mk i n d bs its c u) itemId clk with
    | some b2 => some (b2 :: rest)
    | none =>
      match removeItemRecF bs itemId clk with
      | some bs2 => some (Box.mk i n d bs2 its c u :: rest)
      | none =>
        match removeItemRecF rest itemId clk with
        | some rest2 => some (Box.mk i n d bs its c u :: rest2)
        | none => none

/-- `StorageTracker.prototype.createBox`: generate the id and construct the
box first (the counter is consumed unconditionally), then attach to the
parent when a truthy parent id is given (`NotFoundError` when it does not
resolve), otherwise push onto the root list. -/
def StorageTracker.createBox (t : StorageTracker) (name description : String)
    (parentBoxId : Option String) (clk : Clock) :
    Except TrackerError Box × StorageTracker :=
  let id := generatedId clk.ms t.nextId
  let box : Box := .mk id name description [] [] clk.iso clk.iso
  let t1 : StorageTracker := { t with nextId := t.nextId + 1 }
  if truthy parentBoxId then
    let pid := parentBoxId.getD ""
    match findBoxF t1.rootBoxes pid with
    | none =>
      (.error (.notFound ("Parent box with ID " ++ pid ++ " not found")), t1)
    | some _ =>
      match addBoxAtF t1.rootBoxes pid box clk with
      | some roots2 => (.ok box, { t1 with rootBoxes := roots2 })
      | none => (.ok box, t1)
  else
    (.ok box, { t1 with rootBoxes := t1.rootBoxes ++ [box] })

/-- `StorageTracker.prototype.createItem`: generate the id and construct the
item first (the counter is consumed unconditionally); a falsy `boxId` is a
`ValidationError` (`Items must be added to a box`), an unresolvable one a
`NotFoundError`. -/
def StorageTracker.createItem (t : StorageTracker) (name description : String)
    (boxId : Option String) (clk : Clock) :
    Except TrackerError Item × StorageTracker :=
  let id := generatedId clk.ms t.nextId
  let item := Item.new id name description clk
  let t1 : StorageTracker := { t with nextId := t.nextId + 1 }
  if truthy boxId then
    let bid := boxId.getD ""
    match findBoxF t1.rootBoxes bid with
    | none => (.error (.notFound ("Box with ID " ++ bid ++ " not found")), t1)
    | some _ =>
      match addItemAtF t1.rootBoxes bid item clk with
      | some roots2 => (.ok item, { t1 with rootBoxes := roots2 })
      | none => (.ok item, t1)
  else
    (.error (.validation "Items must be added to a box"), t1)

/-- `StorageTracker.prototype.findBox`: scan each root subtree in order. -/
def StorageTracker.findBox (t : StorageTracker) (boxId : String) : Option Box :=
  findBoxF t.rootBoxes boxId

/-- `StorageTracker.prototype.findItem`: scan each root subtree in order. -/
def StorageTracker.findItem (t : StorageTracker) (itemId : String) : Option Item :=
  findItemF t.rootBoxes itemId

/-- `StorageTracker.prototype.updateBox`: resolve the box (`NotFoundError`
when missing) and delegate to `Box.prototype.update`. -/
def StorageTracker.updateBox (t : StorageTracker) (boxId : String)
    (u : BoxUpdates) (clk : Clock) : Except TrackerError Box × StorageTracker :=
  match findBoxF t.rootBoxes boxId with
  | none => (.error (.notFound ("Box with ID " ++ boxId ++ " not found")), t)
  | some b =>
    (.ok (b.update u clk),
     { t with rootBoxes := (updateBoxAtF t.rootBoxes boxId u clk).getD t.rootBoxes })

/-- `StorageTracker.prototype.updateItem`: resolve the item (`NotFoundError`
when missing) and delegate to `Item.prototype.update`. -/
def StorageTracker.updateItem (t : StorageTracker) (itemId : String)
    (u : ItemUpdates) (clk : Clock) : Except TrackerError Item × StorageTracker :=
  match findItemF t.rootBoxes itemId with
  | none => (.error (.notFound ("Item with ID " ++ itemId ++ " not found")), t)
  | some it =>
    (.ok (it.update u clk),
     { t with rootBoxes := (updateItemAtF t.rootBoxes itemId u clk).getD t.rootBoxes })

/-- `StorageTracker.prototype.deleteBox`: splice from the root list when the
id names a root, otherwise run the recursive removal; `false` when nothing
matched. -/
def StorageTracker.deleteBox (t : StorageTracker) (boxId : String)
    (clk : Clock) : Bool × StorageTracker :=
  match eraseFirstBoxById t.rootBoxes boxId with
  | some roots2 => (true, { t with rootBoxes := roots2 })
  | none =>
    match removeBoxRecF t.rootBoxes boxId clk with
    | some roots2 => (true, { t with rootBoxes := roots2 })
    | none => (false, t)

/-- `StorageTracker.prototype.deleteItem`: recursive removal over every root
subtree; `false` when nothing matched. -/
def StorageTracker.deleteItem (t : StorageTracker) (itemId : String)
    (clk : Clock) : Bool × StorageTracker :=
  match removeItemRecF t.rootBoxes itemId clk with
  | some roots2 => (true, { t with rootBoxes := roots2 })
  | none => (false, t)

/-- `StorageTracker.prototype.moveBox`: resolve the box, resolve the truthy
new parent, reject with `InvalidOperationError` when the new parent id is
found inside the subtree of the box being moved (`box.findBox(newParentBoxId)`),
then detach (`deleteBox`) and attach (append to the new parent's children or
to the root list). -/
def StorageTracker.moveBox (t : StorageTracker) (boxId : String)
    (newParentBoxId : Option String) (clk : Clock) :
    Except TrackerError Box × StorageTracker :=
  match findBoxF t.rootBoxes boxId with
  | none => (.error (.notFound ("Box with ID " ++ boxId ++ " not found")), t)
  | some box =>
    if truthy newParentBoxId then
      let pid := newParentBoxId.getD ""
      match findBoxF t.rootBoxes pid with
      | none =>
        (.error (.notFound ("New parent box with ID " ++ pid ++ " not found")), t)
      | some _ =>
        match findBoxF [box] pid with
        | some _ =>
          (.error (.invalidOperation "Cannot move a box into one of its own descendants"), t)
        | none =>
          let t2 := (t.deleteBox boxId clk).2
          match addBoxAtF t2.rootBoxes pid box clk with
          | some roots2 => (.ok box, { t2 with rootBoxes := roots2 })
          | none => (.ok box, t2)
    else
      let t2 := (t.deleteBox boxId clk).2
      (.ok box, { t2 with rootBoxes := t2.rootBoxes ++ [box] })

/-- `StorageTracker.prototype.moveItem`: resolve the item and the destination
box (`NotFoundError` on either miss), then detach (`deleteItem`) and attach
(`newBox.addItem`). -/
def StorageTracker.moveItem (t : StorageTracker) (itemId newBoxId : String)
    (clk : Clock) : Except TrackerError Item × StorageTracker :=
  match findItemF t.rootBoxes itemId with
  | none => (.error (.notFound ("Item with ID " ++ itemId ++ " not found")), t)
  | some item =>
    match findBoxF t.rootBoxes newBoxId with
    | none => (.error (.notFound ("New box with ID " ++ newBoxId ++ " not found")), t)
    | some _ =>
      let t2 := (t.deleteItem itemId clk).2
      match addItemAtF t2.rootBoxes newBoxId item clk with
      | some roots2 => (.ok item, { t2 with rootBoxes := roots2 })
      | none => (.ok item, t2)

/-- A `{id, name}` entry of a search path. -/
structure SearchEntry where
  id : String
  name : String
deriving DecidableEq, Repr

/-- The path entry recorded for a box. -/
def Box.entry (b : Box) : SearchEntry := ⟨b.id, b.name⟩

/-- A box search hit: the box together with the path of its ancestors. -/
structure BoxHit where
  box : Box
  path : List SearchEntry

/-- An item search hit: the item together with the path of the boxes that
contain it. -/
structure ItemHit where
  item : Item
  path : List SearchEntry
deriving DecidableEq, Repr

/-- Search results: matched boxes and matched items. -/
structure SearchResults where
  boxes : List BoxHit
  items : List ItemHit

/-- Is `needle` a prefix of `hay` (character-wise)? -/
def charsPrefix : List Char → List Char → Bool
  | [], _ => true
  | _ :: _, [] => false
  | n :: ns, h :: hs => n == h && charsPrefix ns hs

/-- Does `needle` occur contiguously inside `hay`?  (`String.prototype.includes`.) -/
def charsIncluded : List Char → List Char → Bool
  | needle, [] => needle.isEmpty
  | needle, h :: hs => charsPrefix needle (h :: hs) || charsIncluded needle hs

/-- JS `hay.includes(needle)` on strings. -/
def strIncludes (hay needle : String) : Bool := charsIncluded needle.data hay.data

/-- JS `s.toLowerCase()`: lower-case every character. -/
def strLower (s : String) : String := ⟨s.data.map Char.toLower⟩

/-- Does the (already lower-cased) query match a box's name or description? -/
def boxMatch (q : String) (b : Box) : Bool :=
  strIncludes (strLower b.name) q || strIncludes (strLower b.description) q

/-- Does the (already lower-cased) query match an item's name or description? -/
def itemMatch (q : String) (it : Item) : Bool :=
  strIncludes (strLower it.name) q || strIncludes (strLower it.description) q

/-- `StorageTracker.prototype._searchRecursive` over a list of boxes with the
accumulated results and the path of ancestors: for each box, record the box
when it matches (with the path *excluding* the box itself), record every
matching direct item (with the path *including* the box), then descend into
the nested boxes with the extended path. -/
def searchRecF (q : String) : List Box → List SearchEntry → SearchResults → SearchResults
  | [], _, res => res
  | Box.mk i n d bs its c u :: rest, parentPath, res =>
    let box := Box.mk i n d bs its c u
    let currentPath := parentPath ++ [box.entry]
    let res1 :=
      if boxMatch q box then
        { res with boxes := res.boxes ++ [⟨box, parentPath⟩] }
      else res
    let res2 :=
      { res1 with
        items := res1.items ++ (its.filter (itemMatch q)).map (fun it => ⟨it, currentPath⟩) }
    let res3 := searchRecF q bs currentPath res2
    searchRecF q rest parentPath res3

/-- `StorageTracker.prototype.search`: lower-case the query and run the
recursive search from every root with an empty path. -/
def StorageTracker.search (t : StorageTracker) (query : String) : SearchResults :=
  searchRecF (strLower query) t.rootBoxes [] ⟨[], []⟩

/-- The record returned by `StorageTracker.prototype.getStats`. -/
structure Stats where
  totalBoxes : Nat
  totalItems : Nat
  rootBoxes : Nat
deriving DecidableEq, Repr

/-- The depth-first counting pass of `getStats` (`countRecursive`): visit a
box (counting it and its direct items), then its children, then its
siblings. -/
def statsGo : List Box → Nat × Nat → Nat × Nat
  | [], acc => acc
  | Box.mk _ _ _ bs its _ _ :: rest, (tb, ti) =>
    statsGo rest (statsGo bs (tb + 1, ti + its.length))

/-- `StorageTracker.prototype.getStats`. -/
def StorageTracker.getStats (t : StorageTracker) : Stats :=
  let (tb, ti) := statsGo t.rootBoxes (0, 0)
  ⟨tb, ti, t.rootBoxes.length⟩

/-- The JSON document written by `StorageTracker.prototype.save`. -/
structure SaveData where
  rootBoxes : List BoxJSON
  nextId : Nat
  savedAt : String

/-- `StorageTracker.prototype.save` (the document construction; the file
write itself is I/O). -/
def StorageTracker.save (t : StorageTracker) (clk : Clock) : SaveData :=
  ⟨toJSONF t.rootBoxes, t.nextId, clk.iso⟩

/-- `StorageTracker.prototype.load` (the document consumption): rebuild the
forest with `Box.fromJSON` and restore `nextId` through `|| 1`. -/
def StorageTracker.load (d : SaveData) (clk : Clock) : StorageTracker :=
  ⟨boxFromJSONF d.rootBoxes clk, jsOrN d.nextId 1⟩

/-- Specification-side collection of every box reachable from a list of
roots, in depth-first preorder. -/
def nodesF : List Box → List Box
  | [] => []
  | Box.mk i n d bs its c u :: rest =>
    Box.mk i n d bs its c u :: (nodesF bs ++ nodesF rest)

/-- The ids of every reachable box. -/
def boxIdsF (f : List Box) : List String := (nodesF f).map Box.id

/-- Every item reachable from the roots. -/
def allItemsF (f : List Box) : List Item := (nodesF f).flatMap Box.items

/-- Number of reachable boxes. -/
def countBoxesF (f : List Box) : Nat := (nodesF f).length

/-- Number of reachable items. -/
def countItemsF (f : List Box) : Nat := (allItemsF f).length

/-- How many boxes of a list carry the given id. -/
def idCount (l : List Box) (x : String) : Nat := (l.map Box.id).count x

/-- A root-to-node chain in a forest: the head is one of the roots and each
following box is a child of its predecessor. -/
def BoxChain : List Box → List Box → Prop
  | _, [] => False
  | f, [b] => b ∈ f
  | f, b :: b2 :: rest => b ∈ f ∧ BoxChain b.boxes (b2 :: rest)

/-- The mutating engine operations quantified over by claim C3. -/
inductive TrackerOp where
  | createBox (name description : String) (parentBoxId : Option String)
  | createItem (name description : String) (boxId : Option String)
  | updateBox (boxId : String) (u : BoxUpdates)
  | updateItem (itemId : String) (u : ItemUpdates)
  | moveBox (boxId : String) (newParentBoxId : Option String)
  | moveItem (itemId newBoxId : String)

/-- The error component of an operation result. -/
def errOf {α : Type} : Except TrackerError α → Option TrackerError
  | .error e => some e
  | .ok _ => none

/-- Run one engine operation, keeping the error (if any) and the final
tracker state. -/
def applyOp (t : StorageTracker) (op : TrackerOp) (clk : Clock) :
    Option TrackerError × StorageTracker :=
  match op with
  | .createBox n d p =>
    ((t.createBox n d p clk).1 |> errOf, (t.createBox n d p clk).2)
  | .createItem n d p =>
    ((t.createItem n d p clk).1 |> errOf, (t.createItem n d p clk).2)
  | .updateBox x u =>
    ((t.updateBox x u clk).1 |> errOf, (t.updateBox x u clk).2)
  | .updateItem x u =>
    ((t.updateItem x u clk).1 |> errOf, (t.updateItem x u clk).2)
  | .moveBox x p =>
    ((t.moveBox x p clk).1 |> errOf, (t.moveBox x p clk).2)
  | .moveItem x y =>
    ((t.moveItem x y clk).1 |> errOf, (t.moveItem x y clk).2)

/-- Well-formedness of timestamps: every reachable box and item carries
non-empty timestamp strings (as `new Date().toISOString()` always produces);
needed because `fromJSON` replaces a falsy (empty) timestamp by the current
time. -/
def ForestWF (f : List Box) : Prop :=
  ∀ b ∈ nodesF f,
    (b.createdAt ≠ "" ∧ b.updatedAt ≠ "")
    ∧ ∀ it ∈ b.items, it.createdAt ≠ "" ∧ it.updatedAt ≠ ""

/-- Positional decimal decoding of a digit string. -/
def decDigits : List Char → Nat
  | [] => 0
  | c :: cs => (c.toNat - 48) * 10 ^ cs.length + decDigits cs

/-- One create call of a run: either `createBox` or `createItem`. -/
inductive CreateCmd where
  | box (name description : String) (parentBoxId : Option String)
  | item (name description : String) (boxId : Option String)

/-- Run a sequence of create calls (each with its own clock reading) on a
tracker, collecting the ids of the successfully created entities in order. -/
def runCreates : StorageTracker → List (CreateCmd × Clock) → List String
  | _, [] => []
  | t, (.box n d p, clk) :: rest =>
    match t.createBox n d p clk with
    | (.ok b, t2) => b.id :: runCreates t2 rest
    | (.error _, t2) => runCreates t2 rest
  | t, (.item n d p, clk) :: rest =>
    match t.createItem n d p clk with
    | (.ok it, t2) => it.id :: runCreates t2 rest
    | (.error _, t2) => runCreates t2 rest

@[simp]
theorem Box.id_mk (i n d : String) (bs : List Box) (its : List Item) (c u : String) :
    (Box.mk i n d bs its c u).id = i := rfl

@[simp]
theorem Box.name_mk (i n d : String) (bs : List Box) (its : List Item) (c u : String) :
    (Box.mk i n d bs its c u).name = n := rfl

@[simp]
theorem Box.description_mk (i n d : String) (bs : List Box) (its : List Item) (c u : String) :
    (Box.mk i n d bs its c u).description = d := rfl

@[simp]
theorem Box.boxes_mk (i n d : String) (bs : List Box) (its : List Item) (c u : String) :
    (Box.mk i n d bs its c u).boxes = bs := rfl

@[simp]
theorem Box.items_mk (i n d : String) (bs : List Box) (its : List Item) (c u : String) :
    (Box.mk i n d bs its c u).items = its := rfl

@[simp]
theorem Box.createdAt_mk (i n d : String) (bs : List Box) (its : List Item) (c u : String) :
    (Box.mk i n d bs its c u).createdAt = c := rfl

@[simp]
theorem Box.updatedAt_mk (i n d : String) (bs : List Box) (its : List Item) (c u : String) :
    (Box.mk i n d bs its c u).updatedAt = u := rfl

@[simp]
theorem nodesF_nil : nodesF [] = [] := by simp [nodesF]

@[simp]
theorem nodesF_cons (b : Box) (rest : List Box) :
    nodesF (b :: rest) = b :: (nodesF b.boxes ++ nodesF rest) := by
  cases b
  simp [nodesF]

theorem nodesF_append (l₁ l₂ : List Box) :
    nodesF (l₁ ++ l₂) = nodesF l₁ ++ nodesF l₂ := by
  induction l₁ with
  | nil => simp
  | cons b rest ih => simp [ih]

theorem nodesF_singleton (b : Box) : nodesF [b] = b :: nodesF b.boxes := by
  simp

theorem mem_nodesF_of_mem {b : Box} {f : List Box} (h : b ∈ f) :
    b ∈ nodesF f := by
  induction f with
  | nil => cases h
  | cons x rest ih =>
    rcases List.mem_cons.mp h with rfl | h2
    · simp
    · simp [ih h2]

theorem nodesF_boxes_subset {f : List Box} :
    ∀ N ∈ nodesF f, ∀ M ∈ nodesF N.boxes, M ∈ nodesF f := by
  induction f using nodesF.induct with
  | case1 => simp
  | case2 i n d bs its c u rest ihbs ihrest =>
    intro N hN M hM
    simp only [nodesF_cons, Box.boxes_mk, List.mem_cons, List.mem_append] at hN ⊢
    rcases hN with rfl | hN | hN
    · right; left; exact hM
    · right; left; exact ihbs N hN M hM
    · right; right; exact ihrest N hN M hM

theorem nodesF_subtree_subset {f : List Box} {N : Box} (hN : N ∈ nodesF f) :
    ∀ M ∈ nodesF [N], M ∈ nodesF f := by
  intro M hM
  rw [nodesF_singleton] at hM
  rcases List.mem_cons.mp hM with rfl | hM2
  · exact hN
  · exact nodesF_boxes_subset N hN M hM2

theorem sizeOf_le_of_mem_nodesF :
    ∀ (l : List Box) (c : Box), c ∈ nodesF l → sizeOf c ≤ sizeOf l := by
  intro l
  induction l using nodesF.induct with
  | case1 => simp
  | case2 i n d bs its cr u rest ihbs ihrest =>
    intro c hc
    simp only [nodesF_cons, Box.boxes_mk, List.mem_cons, List.mem_append] at hc
    rcases hc with rfl | hc | hc
    · simp; omega
    · have := ihbs c hc
      simp
      omega
    · have := ihrest c hc
      simp
      omega

/-- No box occurs in its own subtree of children: a container is never
reachable from itself by following child links. -/
theorem box_not_in_own_subtree (b : Box) : b ∉ nodesF b.boxes := by
  intro h
  have h1 := sizeOf_le_of_mem_nodesF b.boxes b h
  cases b with
  | mk i n d bs its c u =>
    simp only [Box.boxes_mk] at h1
    simp at h1
    omega

/-- The total number of occurrences of an id among reachable boxes splits
into its occurrences in the root list plus its occurrences as somebody's
direct child. -/
theorem boxIdsF_count_split (f : List Box) (x : String) :
    (boxIdsF f).count x
      = (f.map Box.id).count x
        + ((nodesF f).map (fun b => idCount b.boxes x)).sum := by
  induction f using nodesF.induct with
  | case1 => simp [boxIdsF]
  | case2 i n d bs its c u rest ihbs ihrest =>
    simp only [boxIdsF, nodesF_cons, Box.boxes_mk, List.map_cons, List.map_append,
      List.count_cons, List.count_append, List.sum_cons, List.sum_append] at *
    simp only [idCount] at *
    omega

theorem findBoxF_eq_some :
    ∀ (f : List Box) (x : String) (b : Box),
    findBoxF f x = some b → b.id = x ∧ b ∈ nodesF f := by
  intro f x
  induction f, x using findBoxF.induct with
  | case1 x =>
    intro b h
    simp [findBoxF] at h
  | case2 n d bs its c u rest boxId =>
    intro b h
    rw [findBoxF, if_pos rfl] at h
    cases h
    simp
  | case3 i n d bs its c u rest boxId hne r hr ih =>
    intro b h
    rw [findBoxF] at h
    rw [if_neg hne, hr] at h
    cases h
    rcases ih r hr with ⟨h1, h2⟩
    exact ⟨h1, by simp [h2]⟩
  | case4 i n d bs its c u rest boxId hne hr ihbs ihrest =>
    intro b h
    rw [findBoxF] at h
    rw [if_neg hne, hr] at h
    rcases ihrest b h with ⟨h1, h2⟩
    exact ⟨h1, by simp [h2]⟩

theorem findBoxF_eq_none_iff (f : List Box) (x : String) :
    findBoxF f x = none ↔ x ∉ boxIdsF f := by
  induction f, x using findBoxF.induct with
  | case1 x => simp [findBoxF, boxIdsF]
  | case2 n d bs its c u rest boxId =>
    rw [findBoxF, if_pos rfl]
    simp [boxIdsF]
  | case3 i n d bs its c u rest boxId hne r hr ih =>
    rw [findBoxF, if_neg hne, hr]
    have : boxId ∈ boxIdsF bs := by
      by_contra hx
      rw [← ih] at hx
      rw [hr] at hx
      cases hx
    simp only [boxIdsF, nodesF_cons, Box.boxes_mk, List.map_cons, List.map_append,
      List.mem_cons, List.mem_append]
    simp only [boxIdsF] at this
    constructor
    · intro h
      cases h
    · intro h
      exact absurd (Or.inr (Or.inl this)) h
  | case4 i n d bs its c u rest boxId hne hr ihbs ihrest =>
    rw [findBoxF, if_neg hne, hr]
    have hnb : boxId ∉ boxIdsF bs := (ihbs).mp hr
    simp only [boxIdsF, nodesF_cons, Box.boxes_mk, List.map_cons, List.map_append,
      List.mem_cons, List.mem_append] at ihrest ⊢
    simp only [boxIdsF] at hnb ihrest
    rw [ihrest]
    constructor
    · intro h hx
      rcases hx with hx | hx | hx
      · exact hne hx.symm
      · exact hnb hx
      · exact h hx
    · intro h hx
      exact h (Or.inr (Or.inr hx))

theorem mem_boxIdsF_of_mem_nodesF {b : Box} {f : List Box} (h : b ∈ nodesF f) :
    b.id ∈ boxIdsF f := List.mem_map_of_mem Box.id h

theorem findBoxF_of_mem_nodup {b : Box} {f : List Box}
    (hnd : (boxIdsF f).Nodup) (h : b ∈ nodesF f) :
    findBoxF f b.id = some b := by
  have hmem : b.id ∈ boxIdsF f := mem_boxIdsF_of_mem_nodesF h
  cases hfind : findBoxF f b.id with
  | none => exact absurd hmem ((findBoxF_eq_none_iff f b.id).mp hfind)
  | some b2 =>
    rcases findBoxF_eq_some f b.id b2 hfind with ⟨h1, h2⟩
    have : b2 = b := List.inj_on_of_nodup_map hnd h2 h h1
    rw [this]

@[simp]
theorem allItemsF_nil : allItemsF [] = [] := by simp [allItemsF]

@[simp]
theorem allItemsF_cons (b : Box) (rest : List Box) :
    allItemsF (b :: rest) = b.items ++ (allItemsF b.boxes ++ allItemsF rest) := by
  simp [allItemsF]

theorem allItemsF_append (l₁ l₂ : List Box) :
    allItemsF (l₁ ++ l₂) = allItemsF l₁ ++ allItemsF l₂ := by
  simp [allItemsF, nodesF_append]

theorem findItemF_eq_some :
    ∀ (f : List Box) (x : String) (it : Item),
    findItemF f x = some it → it.id = x ∧ it ∈ allItemsF f := by
  intro f x
  induction f, x using findItemF.induct with
  | case1 x =>
    intro it h
    simp [findItemF] at h
  | case2 i n d bs its c u rest itemId it0 hfind =>
    intro it h
    rw [findItemF, hfind] at h
    cases h
    have hp := List.find?_some hfind
    have hm := List.mem_of_find?_eq_some hfind
    simp at hp
    exact ⟨hp, by simp [hm]⟩
  | case3 i n d bs its c u rest itemId hfind r hr ih =>
    intro it h
    rw [findItemF, hfind, hr] at h
    cases h
    rcases ih r hr with ⟨h1, h2⟩
    exact ⟨h1, by simp [h2]⟩
  | case4 i n d bs its c u rest itemId hfind hr ihbs ihrest =>
    intro it h
    rw [findItemF, hfind, hr] at h
    rcases ihrest it h with ⟨h1, h2⟩
    exact ⟨h1, by simp [h2]⟩

theorem findItemF_eq_none_iff (f : List Box) (x : String) :
    findItemF f x = none ↔ ∀ it ∈ allItemsF f, it.id ≠ x := by
  induction f, x using findItemF.induct with
  | case1 x => simp [findItemF]
  | case2 i n d bs its c u rest itemId it0 hfind =>
    rw [findItemF, hfind]
    have hm := List.mem_of_find?_eq_some hfind
    have hp := List.find?_some hfind
    simp only [beq_iff_eq] at hp
    simp only [allItemsF_cons, Box.items_mk, List.mem_append]
    constructor
    · intro h
      cases h
    · intro h
      exact absurd hp (h it0 (Or.inl hm))
  | case3 i n d bs its c u rest itemId hfind r hr ih =>
    rw [findItemF, hfind, hr]
    have : r.id = itemId ∧ r ∈ allItemsF bs := findItemF_eq_some bs itemId r hr
    simp only [allItemsF_cons, Box.items_mk, List.mem_append]
    constructor
    · intro h
      cases h
    · intro h
      exact absurd this.1 (h r (Or.inr (Or.inl this.2)))
  | case4 i n d bs its c u rest itemId hfind hr ihbs ihrest =>
    rw [findItemF, hfind, hr]
    have hnone := List.find?_eq_none.mp hfind
    have hbs := ihbs.mp hr
    simp only [allItemsF_cons, Box.items_mk, List.mem_append]
    rw [ihrest]
    constructor
    · intro h it hit
      rcases hit with hit | hit | hit
      · have := hnone it hit
        simpa using this
      · exact hbs it hit
      · exact h it hit
    · intro h it hit
      exact h it (Or.inr (Or.inr hit))

@[simp]
theorem boxIdsF_nil : boxIdsF [] = [] := by simp [boxIdsF]

@[simp]
theorem boxIdsF_cons (b : Box) (rest : List Box) :
    boxIdsF (b :: rest) = b.id :: (boxIdsF b.boxes ++ boxIdsF rest) := by
  simp [boxIdsF]

theorem boxIdsF_append (l₁ l₂ : List Box) :
    boxIdsF (l₁ ++ l₂) = boxIdsF l₁ ++ boxIdsF l₂ := by
  simp [boxIdsF, nodesF_append]

theorem eraseFirstBoxById_eq_none (l : List Box) (x : String) :
    eraseFirstBoxById l x = none ↔ ∀ b ∈ l, b.id ≠ x := by
  induction l with
  | nil => simp [eraseFirstBoxById]
  | cons b rest ih =>
    by_cases hb : b.id = x
    · simp [eraseFirstBoxById, hb]
    · cases h2 : eraseFirstBoxById rest x with
      | none =>
        simp only [h2, true_iff] at ih
        simp only [eraseFirstBoxById, hb, h2]
        constructor
        · intro _
          intro c hc
          rcases List.mem_cons.mp hc with rfl | hc2
          · exact hb
          · exact ih c hc2
        · intro _
          simp [hb]
      | some r2 =>
        have : ¬ ∀ b2 ∈ rest, b2.id ≠ x := by
          intro hall
          rw [← ih] at hall
          rw [h2] at hall
          cases hall
        simp [eraseFirstBoxById, hb, h2, this]

theorem eraseFirstBoxById_eq_some :
    ∀ (l : List Box) (x : String) (l2 : List Box),
    eraseFirstBoxById l x = some l2 →
    ∃ b, b.id = x ∧ b ∈ l ∧
      (boxIdsF l).Perm (boxIdsF l2 ++ boxIdsF [b]) ∧
      (allItemsF l).Perm (allItemsF l2 ++ allItemsF [b]) := by
  intro l x
  induction l with
  | nil =>
    intro l2 h
    simp [eraseFirstBoxById] at h
  | cons b rest ih =>
    intro l2 h
    rw [eraseFirstBoxById] at h
    by_cases hb : b.id = x
    · rw [if_pos hb] at h
      cases h
      refine ⟨b, hb, List.mem_cons_self b rest, ?_, ?_⟩
      · rw [List.perm_iff_count]
        intro a
        simp only [boxIdsF_cons, boxIdsF_append, boxIdsF_nil, List.count_append,
          List.count_cons, List.count_nil]
        omega
      · rw [List.perm_iff_count]
        intro a
        simp only [allItemsF_cons, allItemsF_append, allItemsF_nil, List.count_append,
          List.count_nil]
        omega
    · rw [if_neg hb] at h
      cases h2 : eraseFirstBoxById rest x with
      | none =>
        rw [h2] at h
        cases h
      | some r2 =>
        rw [h2] at h
        cases h
        rcases ih r2 h2 with ⟨b', hid, hmem, hperm1, hperm2⟩
        refine ⟨b', hid, List.mem_cons_of_mem b hmem, ?_, ?_⟩
        · rw [List.perm_iff_count]
          intro a
          have hc := hperm1.count_eq a
          simp only [boxIdsF_cons, boxIdsF_append, boxIdsF_nil, List.count_append,
            List.count_cons, List.count_nil] at hc ⊢
          omega
        · rw [List.perm_iff_count]
          intro a
          have hc := hperm2.count_eq a
          simp only [allItemsF_cons, allItemsF_append, allItemsF_nil, List.count_append,
            List.count_nil] at hc ⊢
          omega

theorem Box.removeBox_eq_some {i n d : String} {bs : List Box} {its : List Item}
    {c u : String} {x : String} {clk : Clock} {b2 : Box}
    (h : Box.removeBox (Box.mk i n d bs its c u) x clk = some b2) :
    ∃ bs2, eraseFirstBoxById bs x = some bs2 ∧ b2 = Box.mk i n d bs2 its c clk.iso := by
  rw [Box.removeBox] at h
  cases h2 : eraseFirstBoxById bs x with
  | none => rw [h2] at h; cases h
  | some bs2 =>
    rw [h2] at h
    cases h
    exact ⟨bs2, rfl, rfl⟩

theorem Box.removeBox_eq_none {i n d : String} {bs : List Box} {its : List Item}
    {c u : String} {x : String} {clk : Clock} :
    Box.removeBox (Box.mk i n d bs its c u) x clk = none ↔ eraseFirstBoxById bs x = none := by
  rw [Box.removeBox]
  cases h2 : eraseFirstBoxById bs x <;> simp

theorem removeBoxRecF_eq_some :
    ∀ (l : List Box) (x : String) (clk : Clock) (l2 : List Box),
    removeBoxRecF l x clk = some l2 →
    ∃ B, B.id = x ∧ B ∈ nodesF l ∧
      (boxIdsF l).Perm (boxIdsF l2 ++ boxIdsF [B]) ∧
      (allItemsF l).Perm (allItemsF l2 ++ allItemsF [B]) := by
  intro l x clk
  induction l, x, clk using removeBoxRecF.induct with
  | case1 x clk =>
    intro l2 h
    simp [removeBoxRecF] at h
  | case2 i n d bs its c u rest boxId clk r hrem =>
    intro l2 h
    rw [removeBoxRecF, hrem] at h
    cases h
    rcases Box.removeBox_eq_some hrem with ⟨bs2, herase, rfl⟩
    rcases eraseFirstBoxById_eq_some bs boxId bs2 herase with ⟨B, hid, hmem, hp1, hp2⟩
    refine ⟨B, hid, ?_, ?_, ?_⟩
    · simp [mem_nodesF_of_mem hmem]
    · rw [List.perm_iff_count]
      intro a
      have hc := hp1.count_eq a
      simp only [boxIdsF_cons, boxIdsF_append, boxIdsF_nil, List.count_append,
        List.count_cons, List.count_nil, Box.id_mk, Box.boxes_mk] at hc ⊢
      omega
    · rw [List.perm_iff_count]
      intro a
      have hc := hp2.count_eq a
      simp only [allItemsF_cons, allItemsF_append, allItemsF_nil, List.count_append,
        List.count_nil, Box.items_mk, Box.boxes_mk] at hc ⊢
      omega
  | case3 i n d bs its c u rest boxId clk hrem bs2 hbs ih =>
    intro l2 h
    rw [removeBoxRecF, hrem, hbs] at h
    cases h
    rcases ih bs2 hbs with ⟨B, hid, hmem, hp1, hp2⟩
    refine ⟨B, hid, ?_, ?_, ?_⟩
    · simp only [nodesF_cons, Box.boxes_mk, List.mem_cons, List.mem_append]
      exact Or.inr (Or.inl hmem)
    · rw [List.perm_iff_count]
      intro a
      have hc := hp1.count_eq a
      simp only [boxIdsF_cons, boxIdsF_append, boxIdsF_nil, List.count_append,
        List.count_cons, List.count_nil, Box.id_mk, Box.boxes_mk] at hc ⊢
      omega
    · rw [List.perm_iff_count]
      intro a
      have hc := hp2.count_eq a
      simp only [allItemsF_cons, allItemsF_append, allItemsF_nil, List.count_append,
        List.count_nil, Box.items_mk, Box.boxes_mk] at hc ⊢
      omega
  | case4 i n d bs its c u rest boxId clk hrem hbs rest2 hrest ihbs ihrest =>
    intro l2 h
    rw [removeBoxRecF, hrem, hbs, hrest] at h
    cases h
    rcases ihrest rest2 hrest with ⟨B, hid, hmem, hp1, hp2⟩
    refine ⟨B, hid, ?_, ?_, ?_⟩
    · simp only [nodesF_cons, Box.boxes_mk, List.mem_cons, List.mem_append]
      exact Or.inr (Or.inr hmem)
    · rw [List.perm_iff_count]
      intro a
      have hc := hp1.count_eq a
      simp only [boxIdsF_cons, boxIdsF_append, boxIdsF_nil, List.count_append,
        List.count_cons, List.count_nil, Box.id_mk, Box.boxes_mk] at hc ⊢
      omega
    · rw [List.perm_iff_count]
      intro a
      have hc := hp2.count_eq a
      simp only [allItemsF_cons, allItemsF_append, allItemsF_nil, List.count_append,
        List.count_nil, Box.items_mk, Box.boxes_mk] at hc ⊢
      omega
  | case5 i n d bs its c u rest boxId clk hrem hbs hrest ihbs ihrest =>
    intro l2 h
    rw [removeBoxRecF, hrem, hbs, hrest] at h
    cases h

theorem removeBoxRecF_eq_none :
    ∀ (l : List Box) (x : String) (clk : Clock),
    removeBoxRecF l x clk = none → ∀ N ∈ nodesF l, x ∉ N.boxes.map Box.id := by
  intro l x clk
  induction l, x, clk using removeBoxRecF.induct with
  | case1 x clk =>
    intro _ N hN
    simp at hN
  | case2 i n d bs its c u rest boxId clk r hrem =>
    intro h
    rw [removeBoxRecF, hrem] at h
    cases h
  | case3 i n d bs its c u rest boxId clk hrem bs2 hbs ih =>
    intro h
    rw [removeBoxRecF, hrem, hbs] at h
    cases h
  | case4 i n d bs its c u rest boxId clk hrem hbs rest2 hrest ihbs ihrest =>
    intro h
    rw [removeBoxRecF, hrem, hbs, hrest] at h
    cases h
  | case5 i n d bs its c u rest boxId clk hrem hbs hrest ihbs ihrest =>
    intro _ N hN
    have hrm := Box.removeBox_eq_none.mp hrem
    have hhd : boxId ∉ bs.map Box.id := by
      intro hx
      rcases List.mem_map.mp hx with ⟨b, hb, hbid⟩
      exact (eraseFirstBoxById_eq_none bs boxId).mp hrm b hb hbid
    simp only [nodesF_cons, Box.boxes_mk, List.mem_cons, List.mem_append] at hN
    rcases hN with rfl | hN | hN
    · simpa using hhd
    · exact ihbs hbs N hN
    · exact ihrest hrest N hN

theorem deleteBox_found (t : StorageTracker) (x : String) (clk : Clock)
    (hx : x ∈ boxIdsF t.rootBoxes) :
    ∃ B f2, B.id = x ∧ B ∈ nodesF t.rootBoxes ∧
      t.deleteBox x clk = (true, ⟨f2, t.nextId⟩) ∧
      (boxIdsF t.rootBoxes).Perm (boxIdsF f2 ++ boxIdsF [B]) ∧
      (allItemsF t.rootBoxes).Perm (allItemsF f2 ++ allItemsF [B]) := by
  rw [StorageTracker.deleteBox]
  cases h1 : eraseFirstBoxById t.rootBoxes x with
  | some roots2 =>
    rcases eraseFirstBoxById_eq_some t.rootBoxes x roots2 h1 with ⟨B, hid, hmem, hp1, hp2⟩
    exact ⟨B, roots2, hid, mem_nodesF_of_mem hmem, rfl, hp1, hp2⟩
  | none =>
    cases h2 : removeBoxRecF t.rootBoxes x clk with
    | some roots2 =>
      rcases removeBoxRecF_eq_some t.rootBoxes x clk roots2 h2 with ⟨B, hid, hmem, hp1, hp2⟩
      exact ⟨B, roots2, hid, hmem, rfl, hp1, hp2⟩
    | none =>
      exfalso
      have hroot : (t.rootBoxes.map Box.id).count x = 0 := by
        rw [List.count_eq_zero]
        intro hmem
        rcases List.mem_map.mp hmem with ⟨b, hb, hbid⟩
        exact (eraseFirstBoxById_eq_none t.rootBoxes x).mp h1 b hb hbid
      have hchild : ((nodesF t.rootBoxes).map (fun b => idCount b.boxes x)).sum = 0 := by
        rw [List.sum_eq_zero_iff]
        intro v hv
        rcases List.mem_map.mp hv with ⟨N, hN, rfl⟩
        have := removeBoxRecF_eq_none t.rootBoxes x clk h2 N hN
        simp only [idCount]
        rw [List.count_eq_zero]
        exact this
      have := boxIdsF_count_split t.rootBoxes x
      rw [hroot, hchild] at this
      have hpos : (boxIdsF t.rootBoxes).count x ≠ 0 := by
        intro hzero
        exact (List.count_eq_zero.mp hzero) hx
      omega

theorem deleteBox_not_found (t : StorageTracker) (x : String) (clk : Clock)
    (hx : x ∉ boxIdsF t.rootBoxes) :
    t.deleteBox x clk = (false, t) := by
  rw [StorageTracker.deleteBox]
  have h1 : eraseFirstBoxById t.rootBoxes x = none := by
    rw [eraseFirstBoxById_eq_none]
    intro b hb hbid
    exact hx (hbid ▸ mem_boxIdsF_of_mem_nodesF (mem_nodesF_of_mem hb))
  rw [h1]
  cases h2 : removeBoxRecF t.rootBoxes x clk with
  | some roots2 =>
    exfalso
    rcases removeBoxRecF_eq_some t.rootBoxes x clk roots2 h2 with ⟨B, hid, hmem, _, _⟩
    exact hx (hid ▸ mem_boxIdsF_of_mem_nodesF hmem)
  | none => rfl

theorem addBoxAtF_eq_none :
    ∀ (l : List Box) (pid : String) (child : Box) (clk : Clock),
    addBoxAtF l pid child clk = none → ∀ b ∈ nodesF l, b.id ≠ pid := by
  intro l pid child clk
  induction l, pid, child, clk using addBoxAtF.induct with
  | case1 pid child clk =>
    intro _ b hb
    simp at hb
  | case2 n d bs its c u rest pid child clk =>
    intro h
    rw [addBoxAtF, if_pos rfl] at h
    cases h
  | case3 i n d bs its c u rest pid child clk hne bs2 hbs ih =>
    intro h
    rw [addBoxAtF, if_neg hne, hbs] at h
    cases h
  | case4 i n d bs its c u rest pid child clk hne hbs rest2 hrest ihbs ihrest =>
    intro h
    rw [addBoxAtF, if_neg hne, hbs, hrest] at h
    cases h
  | case5 i n d bs its c u rest pid child clk hne hbs hrest ihbs ihrest =>
    intro _ b hb
    simp only [nodesF_cons, Box.boxes_mk, List.mem_cons, List.mem_append] at hb
    rcases hb with rfl | hb | hb
    · simpa using hne
    · exact ihbs hbs b hb
    · exact ihrest hrest b hb

theorem addBoxAtF_eq_some :
    ∀ (l : List Box) (pid : String) (child : Box) (clk : Clock) (l2 : List Box),
    addBoxAtF l pid child clk = some l2 →
    (boxIdsF l2).Perm (boxIdsF l ++ boxIdsF [child]) ∧
    (allItemsF l2).Perm (allItemsF l ++ allItemsF [child]) ∧
    l2.map Box.id = l.map Box.id ∧
    ∃ N ∈ nodesF l2, N.id = pid ∧ child ∈ N.boxes := by
  intro l pid child clk
  induction l, pid, child, clk using addBoxAtF.induct with
  | case1 pid child clk =>
    intro l2 h
    simp [addBoxAtF] at h
  | case2 n d bs its c u rest pid child clk =>
    intro l2 h
    rw [addBoxAtF, if_pos rfl] at h
    cases h
    refine ⟨?_, ?_, ?_, ?_⟩
    · rw [List.perm_iff_count]
      intro a
      simp only [boxIdsF_cons, boxIdsF_append, boxIdsF_nil, List.count_append,
        List.count_cons, List.count_nil, Box.id_mk, Box.boxes_mk]
      omega
    · rw [List.perm_iff_count]
      intro a
      simp only [allItemsF_cons, allItemsF_append, allItemsF_nil, List.count_append,
        List.count_nil, Box.items_mk, Box.boxes_mk]
      omega
    · simp
    · refine ⟨Box.mk pid n d (bs ++ [child]) its c clk.iso, ?_, by simp, by simp⟩
      simp
  | case3 i n d bs its c u rest pid child clk hne bs2 hbs ih =>
    intro l2 h
    rw [addBoxAtF, if_neg hne, hbs] at h
    cases h
    rcases ih bs2 hbs with ⟨hp1, hp2, hmap, N, hN, hNid, hNchild⟩
    refine ⟨?_, ?_, ?_, ?_⟩
    · rw [List.perm_iff_count]
      intro a
      have hc := hp1.count_eq a
      simp only [boxIdsF_cons, boxIdsF_append, boxIdsF_nil, List.count_append,
        List.count_cons, List.count_nil, Box.id_mk, Box.boxes_mk] at hc ⊢
      omega
    · rw [List.perm_iff_count]
      intro a
      have hc := hp2.count_eq a
      simp only [allItemsF_cons, allItemsF_append, allItemsF_nil, List.count_append,
        List.count_nil, Box.items_mk, Box.boxes_mk] at hc ⊢
      omega
    · simp
    · refine ⟨N, ?_, hNid, hNchild⟩
      simp only [nodesF_cons, Box.boxes_mk, List.mem_cons, List.mem_append]
      exact Or.inr (Or.inl hN)
  | case4 i n d bs its c u rest pid child clk hne hbs rest2 hrest ihbs ihrest =>
    intro l2 h
    rw [addBoxAtF, if_neg hne, hbs, hrest] at h
    cases h
    rcases ihrest rest2 hrest with ⟨hp1, hp2, hmap, N, hN, hNid, hNchild⟩
    refine ⟨?_, ?_, ?_, ?_⟩
    · rw [List.perm_iff_count]
      intro a
      have hc := hp1.count_eq a
      simp only [boxIdsF_cons, boxIdsF_append, boxIdsF_nil, List.count_append,
        List.count_cons, List.count_nil, Box.id_mk, Box.boxes_mk] at hc ⊢
      omega
    · rw [List.perm_iff_count]
      intro a
      have hc := hp2.count_eq a
      simp only [allItemsF_cons, allItemsF_append, allItemsF_nil, List.count_append,
        List.count_nil, Box.items_mk, Box.boxes_mk] at hc ⊢
      omega
    · simp [hmap]
    · refine ⟨N, ?_, hNid, hNchild⟩
      simp only [nodesF_cons, Box.boxes_mk, List.mem_cons, List.mem_append]
      exact Or.inr (Or.inr hN)
  | case5 i n d bs its c u rest pid child clk hne hbs hrest ihbs ihrest =>
    intro l2 h
    rw [addBoxAtF, if_neg hne, hbs, hrest] at h
    cases h

@[simp]
theorem countBoxesF_nil : countBoxesF [] = 0 := by simp [countBoxesF]

@[simp]
theorem countBoxesF_cons (b : Box) (rest : List Box) :
    countBoxesF (b :: rest) = 1 + countBoxesF b.boxes + countBoxesF rest := by
  simp [countBoxesF]
  omega

@[simp]
theorem countItemsF_nil : countItemsF [] = 0 := by simp [countItemsF]

@[simp]
theorem countItemsF_cons (b : Box) (rest : List Box) :
    countItemsF (b :: rest) = b.items.length + countItemsF b.boxes + countItemsF rest := by
  simp [countItemsF]
  omega

theorem statsGo_eq :
    ∀ (l : List Box) (tb ti : Nat),
    statsGo l (tb, ti) = (tb + countBoxesF l, ti + countItemsF l) := by
  intro l
  induction l using nodesF.induct with
  | case1 =>
    intro tb ti
    simp [statsGo]
  | case2 i n d bs its c u rest ihbs ihrest =>
    intro tb ti
    rw [statsGo, ihbs, ihrest]
    simp only [countBoxesF_cons, countItemsF_cons, Box.boxes_mk, Box.items_mk,
      Prod.mk.injEq]
    constructor <;> omega

/-- Claim C9: `stats()` returns exactly the number of containers reachable
from the roots, the number of items reachable from the roots, and the length
of the root list. -/
theorem claim_C9 (t : StorageTracker) :
    t.getStats
      = ⟨countBoxesF t.rootBoxes, countItemsF t.rootBoxes, t.rootBoxes.length⟩ := by
  rw [StorageTracker.getStats, statsGo_eq]
  simp

/-- Claim C5: for every item, the derived `averageSoldPrice` is 0 when
`soldAmount = 0` and `soldPrice / soldAmount` otherwise, and the derived
`profitLoss` is `soldPrice - boughtAmount * boughtPrice`; both the accessor
methods and the serialized form report these values. -/
theorem claim_C5 (it : Item) :
    it.getAverageSoldPrice
        = (if it.soldAmount = 0 then 0 else it.soldPrice / it.soldAmount)
      ∧ it.getProfitLoss = it.soldPrice - it.boughtAmount * it.boughtPrice
      ∧ it.toJSON.averageSoldPrice
        = (if it.soldAmount = 0 then 0 else it.soldPrice / it.soldAmount)
      ∧ it.toJSON.profitLoss = it.soldPrice - it.boughtAmount * it.boughtPrice :=
  ⟨rfl, rfl, rfl, rfl⟩

/-- Claim C10: a `createItem` call with a missing (falsy) or unresolvable
container id, and a `createBox` call with an unresolvable parent id, throw
and leave the root forest unchanged, but the `nextId` counter has still been
incremented by one, because the entity is constructed (consuming an id)
before the parent lookup is validated. -/
theorem claim_C10 (t : StorageTracker) (name description : String)
    (ref : Option String) (clk : Clock) :
    (truthy ref = false →
      t.createItem name description ref clk
        = (.error (.validation "Items must be added to a box"),
           ⟨t.rootBoxes, t.nextId + 1⟩))
    ∧ (truthy ref = true → findBoxF t.rootBoxes (ref.getD "") = none →
      t.createItem name description ref clk
        = (.error (.notFound ("Box with ID " ++ ref.getD "" ++ " not found")),
           ⟨t.rootBoxes, t.nextId + 1⟩))
    ∧ (truthy ref = true → findBoxF t.rootBoxes (ref.getD "") = none →
      t.createBox name description ref clk
        = (.error (.notFound ("Parent box with ID " ++ ref.getD "" ++ " not found")),
           ⟨t.rootBoxes, t.nextId + 1⟩)) := by
  refine ⟨?_, ?_, ?_⟩
  · intro hf
    rw [StorageTracker.createItem]
    simp only [hf]
    rfl
  · intro ht hfind
    rw [StorageTracker.createItem]
    simp only [ht, if_true, hfind]
  · intro ht hfind
    rw [StorageTracker.createBox]
    simp only [ht, if_true, hfind]

/-- Witness for claim C10 at a concrete tracker. -/
theorem claim_C10_witness :
    StorageTracker.createItem ⟨[], 5⟩ "Hammer" "" none ⟨100, "T"⟩
        = (.error (.validation "Items must be added to a box"), ⟨[], 6⟩)
    ∧ StorageTracker.createBox ⟨[], 5⟩ "Garage" "" (some "zzz") ⟨100, "T"⟩
        = (.error (.notFound "Parent box with ID zzz not found"), ⟨[], 6⟩) := by
  constructor
  · exact (claim_C10 ⟨[], 5⟩ "Hammer" "" none ⟨100, "T"⟩).1 rfl
  · exact (claim_C10 ⟨[], 5⟩ "Garage" "" (some "zzz") ⟨100, "T"⟩).2.2 rfl
      (by simp [findBoxF])

theorem createBox_error {t : StorageTracker} {n d : String} {p : Option String}
    {clk : Clock} {e : TrackerError} {t2 : StorageTracker}
    (h : t.createBox n d p clk = (.error e, t2)) : t2.rootBoxes = t.rootBoxes := by
  simp only [StorageTracker.createBox] at h
  split at h
  · split at h
    · cases h
      rfl
    · split at h
      · cases h
      · cases h
  · cases h

theorem createItem_error {t : StorageTracker} {n d : String} {p : Option String}
    {clk : Clock} {e : TrackerError} {t2 : StorageTracker}
    (h : t.createItem n d p clk = (.error e, t2)) : t2.rootBoxes = t.rootBoxes := by
  simp only [StorageTracker.createItem] at h
  split at h
  · split at h
    · cases h
      rfl
    · split at h
      · cases h
      · cases h
  · cases h
    rfl

theorem updateBox_error {t : StorageTracker} {x : String} {u : BoxUpdates}
    {clk : Clock} {e : TrackerError} {t2 : StorageTracker}
    (h : t.updateBox x u clk = (.error e, t2)) : t2.rootBoxes = t.rootBoxes := by
  simp only [StorageTracker.updateBox] at h
  split at h
  · cases h
    rfl
  · cases h

theorem updateItem_error {t : StorageTracker} {x : String} {u : ItemUpdates}
    {clk : Clock} {e : TrackerError} {t2 : StorageTracker}
    (h : t.updateItem x u clk = (.error e, t2)) : t2.rootBoxes = t.rootBoxes := by
  simp only [StorageTracker.updateItem] at h
  split at h
  · cases h
    rfl
  · cases h

theorem moveBox_error {t : StorageTracker} {x : String} {p : Option String}
    {clk : Clock} {e : TrackerError} {t2 : StorageTracker}
    (h : t.moveBox x p clk = (.error e, t2)) : t2.rootBoxes = t.rootBoxes := by
  simp only [StorageTracker.moveBox] at h
  split at h
  · cases h
    rfl
  · split at h
    · split at h
      · cases h
        rfl
      · split at h
        · cases h
          rfl
        · split at h
          · cases h
          · cases h
    · cases h

theorem moveItem_error {t : StorageTracker} {x y : String}
    {clk : Clock} {e : TrackerError} {t2 : StorageTracker}
    (h : t.moveItem x y clk = (.error e, t2)) : t2.rootBoxes = t.rootBoxes := by
  simp only [StorageTracker.moveItem] at h
  split at h
  · cases h
    rfl
  · split at h
    · cases h
      rfl
    · split at h
      · cases h
      · cases h

theorem errOf_eq_some {α : Type} {r : Except TrackerError α} {e : TrackerError}
    (h : errOf r = some e) : r = .error e := by
  cases r with
  | error e2 =>
    rw [errOf] at h
    cases h
    rfl
  | ok a =>
    rw [errOf] at h
    cases h

/-- Claim C3: whenever any of the six mutating operations (`createContainer`,
`createItem`, `updateContainer`, `updateItem`, `moveContainer`, `moveItem`)
fails with an error, the forest (the root list and everything reachable from
it) is exactly the same after the failed call as before it. -/
theorem claim_C3 (t : StorageTracker) (op : TrackerOp) (clk : Clock)
    (e : TrackerError) (t2 : StorageTracker)
    (h : applyOp t op clk = (some e, t2)) : t2.rootBoxes = t.rootBoxes := by
  cases op with
  | createBox n d p =>
    rw [applyOp] at h
    have h1 := congrArg Prod.fst h
    have h2 := congrArg Prod.snd h
    simp only at h1 h2
    have hr : t.createBox n d p clk = (.error e, t2) := by
      calc t.createBox n d p clk
          = ((t.createBox n d p clk).1, (t.createBox n d p clk).2) := rfl
        _ = (.error e, t2) := by rw [errOf_eq_some h1, h2]
    exact createBox_error hr
  | createItem n d p =>
    rw [applyOp] at h
    have h1 := congrArg Prod.fst h
    have h2 := congrArg Prod.snd h
    simp only at h1 h2
    have hr : t.createItem n d p clk = (.error e, t2) := by
      calc t.createItem n d p clk
          = ((t.createItem n d p clk).1, (t.createItem n d p clk).2) := rfl
        _ = (.error e, t2) := by rw [errOf_eq_some h1, h2]
    exact createItem_error hr
  | updateBox x u =>
    rw [applyOp] at h
    have h1 := congrArg Prod.fst h
    have h2 := congrArg Prod.snd h
    simp only at h1 h2
    have hr : t.updateBox x u clk = (.error e, t2) := by
      calc t.updateBox x u clk
          = ((t.updateBox x u clk).1, (t.updateBox x u clk).2) := rfl
        _ = (.error e, t2) := by rw [errOf_eq_some h1, h2]
    exact updateBox_error hr
  | updateItem x u =>
    rw [applyOp] at h
    have h1 := congrArg Prod.fst h
    have h2 := congrArg Prod.snd h
    simp only at h1 h2
    have hr : t.updateItem x u clk = (.error e, t2) := by
      calc t.updateItem x u clk
          = ((t.updateItem x u clk).1, (t.updateItem x u clk).2) := rfl
        _ = (.error e, t2) := by rw [errOf_eq_some h1, h2]
    exact updateItem_error hr
  | moveBox x p =>
    rw [applyOp] at h
    have h1 := congrArg Prod.fst h
    have h2 := congrArg Prod.snd h
    simp only at h1 h2
    have hr : t.moveBox x p clk = (.error e, t2) := by
      calc t.moveBox x p clk
          = ((t.moveBox x p clk).1, (t.moveBox x p clk).2) := rfl
        _ = (.error e, t2) := by rw [errOf_eq_some h1, h2]
    exact moveBox_error hr
  | moveItem x y =>
    rw [applyOp] at h
    have h1 := congrArg Prod.fst h
    have h2 := congrArg Prod.snd h
    simp only at h1 h2
    have hr : t.moveItem x y clk = (.error e, t2) := by
      calc t.moveItem x y clk
          = ((t.moveItem x y clk).1, (t.moveItem x y clk).2) := rfl
        _ = (.error e, t2) := by rw [errOf_eq_some h1, h2]
    exact moveItem_error hr

/-- Claim C3 witness: a concrete failing operation (moving a nonexistent
item) reported through `applyOp`, to which the frame theorem applies. -/
theorem claim_C3_witness :
    applyOp ⟨[], 1⟩ (TrackerOp.moveItem "a" "b") ⟨7, "T"⟩
      = (some (.notFound "Item with ID a not found"), ⟨[], 1⟩)
    ∧ (⟨[], 1⟩ : StorageTracker).rootBoxes = (⟨[], 1⟩ : StorageTracker).rootBoxes := by
  have h : applyOp ⟨[], 1⟩ (TrackerOp.moveItem "a" "b") ⟨7, "T"⟩
      = (some (.notFound "Item with ID a not found"), ⟨[], 1⟩) := by
    simp [applyOp, StorageTracker.moveItem, findItemF, errOf]
  exact ⟨h, claim_C3 ⟨[], 1⟩ (TrackerOp.moveItem "a" "b") ⟨7, "T"⟩
    (.notFound "Item with ID a not found") ⟨[], 1⟩ h⟩

/-- Claim C1: for every forest with duplicate-free box ids and every pair of
boxes A and B in it with B equal to A or a descendant of A (B is found in
the subtree of A) and B carrying a non-empty id, `moveBox(A.id, B.id)` fails
with the `InvalidOperationError` of cycle prevention and leaves the tracker
unchanged; moreover no box is ever reachable from itself by following child
links. -/
theorem claim_C1 :
    (∀ (t : StorageTracker) (A B : Box) (clk : Clock),
      (boxIdsF t.rootBoxes).Nodup →
      A ∈ nodesF t.rootBoxes →
      B ∈ nodesF [A] →
      B.id ≠ "" →
      t.moveBox A.id (some B.id) clk
        = (.error (.invalidOperation "Cannot move a box into one of its own descendants"), t))
    ∧ ∀ b : Box, b ∉ nodesF b.boxes := by
  constructor
  · intro t A B clk hnd hA hB hBid
    have hsub : B ∈ nodesF t.rootBoxes := nodesF_subtree_subset hA B hB
    have hfA : findBoxF t.rootBoxes A.id = some A := findBoxF_of_mem_nodup hnd hA
    have hfB : findBoxF t.rootBoxes B.id = some B := findBoxF_of_mem_nodup hnd hsub
    have htr : truthy (some B.id) = true := by
      simp [truthy, hBid]
    rw [StorageTracker.moveBox, hfA]
    simp only [htr, if_true, Option.getD_some, hfB]
    cases hfAB : findBoxF [A] B.id with
    | none =>
      exfalso
      exact (findBoxF_eq_none_iff [A] B.id).mp hfAB (mem_boxIdsF_of_mem_nodesF hB)
    | some P => rfl
  · exact box_not_in_own_subtree

/-- Claim C1 witness: a two-box chain where moving the parent into its own
child is rejected. -/
theorem claim_C1_witness :
    (boxIdsF [Box.mk "a" "A" "" [Box.mk "b" "B" "" [] [] "T" "T"] [] "T" "T"]).Nodup
    ∧ StorageTracker.moveBox
        ⟨[Box.mk "a" "A" "" [Box.mk "b" "B" "" [] [] "T" "T"] [] "T" "T"], 1⟩
        "a" (some "b") ⟨3, "T"⟩
      = (.error (.invalidOperation "Cannot move a box into one of its own descendants"),
         ⟨[Box.mk "a" "A" "" [Box.mk "b" "B" "" [] [] "T" "T"] [] "T" "T"], 1⟩) := by
  have hnd : (boxIdsF [Box.mk "a" "A" "" [Box.mk "b" "B" "" [] [] "T" "T"] [] "T" "T"]).Nodup := by
    simp [boxIdsF, nodesF]
  refine ⟨hnd, ?_⟩
  have h := (claim_C1.1
    ⟨[Box.mk "a" "A" "" [Box.mk "b" "B" "" [] [] "T" "T"] [] "T" "T"], 1⟩
    (Box.mk "a" "A" "" [Box.mk "b" "B" "" [] [] "T" "T"] [] "T" "T")
    (Box.mk "b" "B" "" [] [] "T" "T") ⟨3, "T"⟩ hnd (by simp) (by simp) (by simp))
  simpa using h

/-- Claim C6: with duplicate-free box and item identifiers, after
`deleteBox(C.id)` returns `true`, every box id and every item reachable from
C (including C itself) is absent from all subsequent `findBox` / `findItem`
results; and when the id resolves to no box, `deleteBox` returns `false` and
changes nothing. -/
theorem claim_C6 (t : StorageTracker) (cid : String) (clk : Clock)
    (hndB : (boxIdsF t.rootBoxes).Nodup)
    (hndI : ((allItemsF t.rootBoxes).map Item.id).Nodup) :
    (∀ C, findBoxF t.rootBoxes cid = some C →
      (t.deleteBox cid clk).1 = true
      ∧ (∀ x ∈ boxIdsF [C], findBoxF (t.deleteBox cid clk).2.rootBoxes x = none)
      ∧ (∀ it ∈ allItemsF [C], findItemF (t.deleteBox cid clk).2.rootBoxes it.id = none))
    ∧ (findBoxF t.rootBoxes cid = none → t.deleteBox cid clk = (false, t)) := by
  constructor
  · intro C hfind
    rcases findBoxF_eq_some t.rootBoxes cid C hfind with ⟨hCid, hCmem⟩
    have hcid : cid ∈ boxIdsF t.rootBoxes := hCid ▸ mem_boxIdsF_of_mem_nodesF hCmem
    rcases deleteBox_found t cid clk hcid with ⟨B, f2, hBid, hBmem, hdel, hp1, hp2⟩
    have hBC : B = C := List.inj_on_of_nodup_map hndB hBmem hCmem (by rw [hBid, hCid])
    subst hBC
    rw [hdel]
    refine ⟨rfl, ?_, ?_⟩
    · intro x hx
      rw [findBoxF_eq_none_iff]
      intro hxf2
      have hcount := hp1.count_eq x
      rw [List.count_append] at hcount
      have h1 : (boxIdsF t.rootBoxes).count x ≤ 1 :=
        List.nodup_iff_count_le_one.mp hndB x
      have h2 : 1 ≤ (boxIdsF [B]).count x := List.one_le_count_iff.mpr hx
      have h3 : 1 ≤ (boxIdsF f2).count x := List.one_le_count_iff.mpr hxf2
      omega
    · intro it hit
      rw [findItemF_eq_none_iff]
      intro it2 hit2 hideq
      have hitall : it ∈ allItemsF t.rootBoxes := by
        have := hp2.mem_iff (a := it)
        rw [this, List.mem_append]
        exact Or.inr hit
      have hit2all : it2 ∈ allItemsF t.rootBoxes := by
        have := hp2.mem_iff (a := it2)
        rw [this, List.mem_append]
        exact Or.inl hit2
      have heq : it2 = it := List.inj_on_of_nodup_map hndI hit2all hitall hideq
      subst heq
      have hcount := hp2.count_eq it2
      rw [List.count_append] at hcount
      have h1 : (allItemsF t.rootBoxes).count it2 ≤ 1 :=
        List.nodup_iff_count_le_one.mp (hndI.of_map) it2
      have h2 : 1 ≤ (allItemsF [B]).count it2 := List.one_le_count_iff.mpr hit
      have h3 : 1 ≤ (allItemsF f2).count it2 := List.one_le_count_iff.mpr hit2
      omega
  · intro hnone
    exact deleteBox_not_found t cid clk ((findBoxF_eq_none_iff t.rootBoxes cid).mp hnone)

/-- Claim C6 witness: deleting a concrete box cascades to the item nested
inside its child box. -/
theorem claim_C6_witness :
    (boxIdsF [Box.mk "a" "A" "" [Box.mk "b" "B" ""
        [] [⟨"i1", "Hammer", "", 0, 0, 0, 0, "T", "T"⟩] "T" "T"] [] "T" "T"]).Nodup
    ∧ findBoxF [Box.mk "a" "A" "" [Box.mk "b" "B" ""
        [] [⟨"i1", "Hammer", "", 0, 0, 0, 0, "T", "T"⟩] "T" "T"] [] "T" "T"] "a"
      = some (Box.mk "a" "A" "" [Box.mk "b" "B" ""
        [] [⟨"i1", "Hammer", "", 0, 0, 0, 0, "T", "T"⟩] "T" "T"] [] "T" "T")
    ∧ (StorageTracker.deleteBox
        ⟨[Box.mk "a" "A" "" [Box.mk "b" "B" ""
          [] [⟨"i1", "Hammer", "", 0, 0, 0, 0, "T", "T"⟩] "T" "T"] [] "T" "T"], 9⟩
        "a" ⟨3, "U"⟩).1 = true := by
  have hndB : (boxIdsF [Box.mk "a" "A" "" [Box.mk "b" "B" ""
      [] [⟨"i1", "Hammer", "", 0, 0, 0, 0, "T", "T"⟩] "T" "T"] [] "T" "T"]).Nodup := by
    simp [boxIdsF, nodesF]
  have hndI : ((allItemsF [Box.mk "a" "A" "" [Box.mk "b" "B" ""
      [] [⟨"i1", "Hammer", "", 0, 0, 0, 0, "T", "T"⟩] "T" "T"] [] "T" "T"]).map Item.id).Nodup := by
    simp [allItemsF, nodesF]
  have hfind : findBoxF [Box.mk "a" "A" "" [Box.mk "b" "B" ""
      [] [⟨"i1", "Hammer", "", 0, 0, 0, 0, "T", "T"⟩] "T" "T"] [] "T" "T"] "a"
      = some (Box.mk "a" "A" "" [Box.mk "b" "B" ""
      [] [⟨"i1", "Hammer", "", 0, 0, 0, 0, "T", "T"⟩] "T" "T"] [] "T" "T") := by
    simp [findBoxF]
  refine ⟨hndB, hfind, ?_⟩
  exact ((claim_C6 ⟨[Box.mk "a" "A" "" [Box.mk "b" "B" ""
      [] [⟨"i1", "Hammer", "", 0, 0, 0, 0, "T", "T"⟩] "T" "T"] [] "T" "T"], 9⟩
      "a" ⟨3, "U"⟩ hndB hndI).1 (Box.mk "a" "A" "" [Box.mk "b" "B" ""
      [] [⟨"i1", "Hammer", "", 0, 0, 0, 0, "T", "T"⟩] "T" "T"] [] "T" "T") hfind).1

theorem sum_map_le_single_eq_zero {α : Type} (φ : α → Nat) :
    ∀ (l : List α) (N : α), N ∈ l → (l.map φ).sum ≤ φ N →
    ∀ M ∈ l, M ≠ N → φ M = 0 := by
  intro l
  induction l with
  | nil => simp
  | cons a rest ih =>
    intro N hN hle M hM hMN
    rw [List.map_cons, List.sum_cons] at hle
    rcases List.mem_cons.mp hN with rfl | hNr
    · rcases List.mem_cons.mp hM with rfl | hMr
      · exact absurd rfl hMN
      · have hMle : φ M ≤ (rest.map φ).sum :=
          List.single_le_sum (fun y _ => Nat.zero_le y) _ (List.mem_map_of_mem φ hMr)
        omega
    · have hNle : φ N ≤ (rest.map φ).sum :=
        List.single_le_sum (fun y _ => Nat.zero_le y) _ (List.mem_map_of_mem φ hNr)
      rcases List.mem_cons.mp hM with rfl | hMr
      · omega
      · exact ih N hNr (by omega) M hMr hMN

theorem countBoxesF_eq_length_boxIdsF (l : List Box) :
    countBoxesF l = (boxIdsF l).length := by
  simp [boxIdsF, countBoxesF]

theorem roots_count_le_total (l : List Box) (x : String) :
    (l.map Box.id).count x ≤ (boxIdsF l).count x := by
  have := boxIdsF_count_split l x
  omega

theorem idCount_eq_zero_of_total_zero {l : List Box} {x : String}
    (h : (boxIdsF l).count x = 0) :
    ∀ M ∈ nodesF l, idCount M.boxes x = 0 := by
  intro M hM
  rw [idCount, List.count_eq_zero]
  intro hmem
  rcases List.mem_map.mp hmem with ⟨c, hc, hcid⟩
  have : c ∈ nodesF l := nodesF_boxes_subset M hM c (mem_nodesF_of_mem hc)
  have : x ∈ boxIdsF l := hcid ▸ mem_boxIdsF_of_mem_nodesF this
  rw [List.count_eq_zero] at h
  exact h this

/-- Claim C2: on a forest with duplicate-free box ids, whenever
`moveBox(X, P)` succeeds, afterwards no root carries id X and exactly the
(unique) box with the destination id has exactly one child with id X while
every other box has none (so X is gone from its old parent and present
exactly once under the destination); with a falsy destination, X sits
exactly once in the root list and under no box at all; and the total number
of reachable boxes and reachable items is unchanged by the move. -/
theorem claim_C2 (t : StorageTracker) (x : String) (p : Option String)
    (clk : Clock) (B : Box) (t2 : StorageTracker)
    (hnd : (boxIdsF t.rootBoxes).Nodup)
    (hok : t.moveBox x p clk = (.ok B, t2)) :
    countBoxesF t2.rootBoxes = countBoxesF t.rootBoxes
    ∧ countItemsF t2.rootBoxes = countItemsF t.rootBoxes
    ∧ (truthy p = true →
        (t2.rootBoxes.map Box.id).count x = 0
        ∧ (∃ N ∈ nodesF t2.rootBoxes, N.id = p.getD "" ∧ idCount N.boxes x = 1)
        ∧ ∀ M ∈ nodesF t2.rootBoxes, M.id ≠ p.getD "" → idCount M.boxes x = 0)
    ∧ (truthy p = false →
        (t2.rootBoxes.map Box.id).count x = 1
        ∧ ∀ M ∈ nodesF t2.rootBoxes, idCount M.boxes x = 0) := by
  rw [StorageTracker.moveBox] at hok
  cases hfx : findBoxF t.rootBoxes x with
  | none =>
    rw [hfx] at hok
    simp at hok
  | some box =>
    rw [hfx] at hok
    rcases findBoxF_eq_some t.rootBoxes x box hfx with ⟨hboxid, hboxmem⟩
    have hxin : x ∈ boxIdsF t.rootBoxes := hboxid ▸ mem_boxIdsF_of_mem_nodesF hboxmem
    have hcx : (boxIdsF t.rootBoxes).count x = 1 :=
      List.count_eq_one_of_mem hnd hxin
    by_cases htr : truthy p = true
    · simp only [htr, if_true] at hok
      cases hfp : findBoxF t.rootBoxes (p.getD "") with
      | none =>
        rw [hfp] at hok
        simp at hok
      | some P =>
        rw [hfp] at hok
        rcases findBoxF_eq_some t.rootBoxes (p.getD "") P hfp with ⟨hPid, hPmem⟩
        have hcpid : (boxIdsF t.rootBoxes).count (p.getD "") = 1 :=
          List.count_eq_one_of_mem hnd (hPid ▸ mem_boxIdsF_of_mem_nodesF hPmem)
        cases hfin : findBoxF [box] (p.getD "") with
        | some Q =>
          rw [hfin] at hok
          simp at hok
        | none =>
          rw [hfin] at hok
          have hpidnotin : p.getD "" ∉ boxIdsF [box] :=
            (findBoxF_eq_none_iff [box] (p.getD "")).mp hfin
          rcases deleteBox_found t x clk hxin with ⟨Bd, f2, hBdid, hBdmem, hdel, hp1, hp2⟩
          have hBdbox : Bd = box :=
            List.inj_on_of_nodup_map hnd hBdmem hboxmem (by rw [hBdid, hboxid])
          subst hBdbox
          rw [hdel] at hok
          simp only at hok
          -- count bookkeeping after the detach
          have hcxbox : (boxIdsF [Bd]).count x ≥ 1 := by
            apply List.one_le_count_iff.mpr
            exact hBdid ▸ mem_boxIdsF_of_mem_nodesF (mem_nodesF_of_mem (List.mem_singleton_self Bd))
          have hcf2x : (boxIdsF f2).count x = 0 := by
            have := hp1.count_eq x
            rw [List.count_append] at this
            omega
          have hcxbox1 : (boxIdsF [Bd]).count x = 1 := by
            have := hp1.count_eq x
            rw [List.count_append] at this
            omega
          have hcf2pid : (boxIdsF f2).count (p.getD "") = 1 := by
            have h1 := hp1.count_eq (p.getD "")
            rw [List.count_append] at h1
            have h2 : (boxIdsF [Bd]).count (p.getD "") = 0 := by
              rw [List.count_eq_zero]
              exact hpidnotin
            omega
          cases hadd : addBoxAtF f2 (p.getD "") Bd clk with
          | none =>
            exfalso
            have hno := addBoxAtF_eq_none f2 (p.getD "") Bd clk hadd
            have : p.getD "" ∈ boxIdsF f2 := by
              apply List.one_le_count_iff.mp
              omega
            rcases List.mem_map.mp this with ⟨b, hb, hbid⟩
            exact hno b hb hbid
          | some g2 =>
            rw [hadd] at hok
            have ht2 : t2 = ⟨g2, t.nextId⟩ := by
              have := congrArg Prod.snd hok
              simpa using this.symm
            subst ht2
            rcases addBoxAtF_eq_some f2 (p.getD "") Bd clk g2 hadd with
              ⟨hq1, hq2, hmap, N, hN, hNid, hNchild⟩
            simp only
            -- total id-count of x in the reattached forest
            have hcg2x : (boxIdsF g2).count x = 1 := by
              have := hq1.count_eq x
              rw [List.count_append] at this
              omega
            -- the root list after attach carries the same ids as after detach
            have hroot0 : (g2.map Box.id).count x = 0 := by
              rw [hmap]
              have := roots_count_le_total f2 x
              omega
            have hsplit := boxIdsF_count_split g2 x
            have hsum : ((nodesF g2).map (fun b => idCount b.boxes x)).sum = 1 := by
              omega
            have hNc1 : 1 ≤ idCount N.boxes x := by
              apply List.one_le_count_iff.mpr
              exact hBdid ▸ List.mem_map_of_mem Box.id hNchild
            have hNmem : idCount N.boxes x ∈ (nodesF g2).map (fun b => idCount b.boxes x) :=
              List.mem_map_of_mem (fun b => idCount b.boxes x) hN
            have hNle : idCount N.boxes x ≤ 1 := by
              rw [← hsum]
              exact List.single_le_sum (fun y _ => Nat.zero_le y) _ hNmem
            have hNeq : idCount N.boxes x = 1 := le_antisymm hNle hNc1
            refine ⟨?_, ?_, ?_, ?_⟩
            · rw [countBoxesF_eq_length_boxIdsF, countBoxesF_eq_length_boxIdsF,
                hq1.length_eq, hp1.length_eq]
            · rw [countItemsF, countItemsF, hq2.length_eq, hp2.length_eq]
            · intro _
              refine ⟨hroot0, ⟨N, hN, hNid, hNeq⟩, ?_⟩
              intro M hM hMne
              have hMN : M ≠ N := by
                intro hMN
                exact hMne (hMN ▸ hNid)
              have hle : ((nodesF g2).map (fun b => idCount b.boxes x)).sum
                  ≤ idCount N.boxes x := by
                rw [hsum, hNeq]
              exact sum_map_le_single_eq_zero (fun b => idCount b.boxes x)
                (nodesF g2) N hN hle M hM hMN
            · intro hfalse
              rw [htr] at hfalse
              cases hfalse
    · have htr2 : truthy p = false := by
        cases h2 : truthy p
        · rfl
        · exact absurd h2 htr
      simp only [htr2, Bool.false_eq_true, if_false] at hok
      rcases deleteBox_found t x clk hxin with ⟨Bd, f2, hBdid, hBdmem, hdel, hp1, hp2⟩
      have hBdbox : Bd = box :=
        List.inj_on_of_nodup_map hnd hBdmem hboxmem (by rw [hBdid, hboxid])
      subst hBdbox
      rw [hdel] at hok
      have ht2 : t2 = ⟨f2 ++ [Bd], t.nextId⟩ := by
        have := congrArg Prod.snd hok
        simpa using this.symm
      subst ht2
      simp only
      have hcxbox1 : (boxIdsF [Bd]).count x = 1 := by
        have hge : (boxIdsF [Bd]).count x ≥ 1 := by
          apply List.one_le_count_iff.mpr
          exact hBdid ▸ mem_boxIdsF_of_mem_nodesF (mem_nodesF_of_mem (List.mem_singleton_self Bd))
        have := hp1.count_eq x
        rw [List.count_append] at this
        omega
      have hcf2x : (boxIdsF f2).count x = 0 := by
        have := hp1.count_eq x
        rw [List.count_append] at this
        omega
      have htot : (boxIdsF (f2 ++ [Bd])).count x = 1 := by
        rw [boxIdsF_append, List.count_append]
        omega
      refine ⟨?_, ?_, ?_, ?_⟩
      · rw [countBoxesF_eq_length_boxIdsF, countBoxesF_eq_length_boxIdsF,
          boxIdsF_append, hp1.length_eq]
      · rw [countItemsF, countItemsF, allItemsF_append, hp2.length_eq]
      · intro hfalse
        rw [htr2] at hfalse
        cases hfalse
      · intro _
        constructor
        · rw [List.map_append, List.count_append]
          have hle := roots_count_le_total f2 x
          have hone : ([Bd].map Box.id).count x = 1 := by
            simp [hBdid]
          omega
        · have hsplit := boxIdsF_count_split (f2 ++ [Bd]) x
          have hroots : ((f2 ++ [Bd]).map Box.id).count x = 1 := by
            rw [List.map_append, List.count_append]
            have hle := roots_count_le_total f2 x
            have hone : ([Bd].map Box.id).count x = 1 := by
              simp [hBdid]
            omega
          have hsum : ((nodesF (f2 ++ [Bd])).map (fun b => idCount b.boxes x)).sum = 0 := by
            omega
          rw [List.sum_eq_zero_iff] at hsum
          intro M hM
          apply hsum
          exact List.mem_map_of_mem (fun b => idCount b.boxes x) hM

/-- Claim C2 witness: moving root box "a" under box "c" in a concrete
two-root forest, with the count-preservation conclusion instantiated. -/
theorem claim_C2_witness :
    (boxIdsF [Box.mk "a" "A" "" [] [] "T" "T", Box.mk "c" "C" "" [] [] "T" "T"]).Nodup
    ∧ StorageTracker.moveBox
        ⟨[Box.mk "a" "A" "" [] [] "T" "T", Box.mk "c" "C" "" [] [] "T" "T"], 7⟩
        "a" (some "c") ⟨9, "U"⟩
      = (.ok (Box.mk "a" "A" "" [] [] "T" "T"),
         ⟨[Box.mk "c" "C" "" [Box.mk "a" "A" "" [] [] "T" "T"] [] "T" "U"], 7⟩)
    ∧ countBoxesF [Box.mk "c" "C" "" [Box.mk "a" "A" "" [] [] "T" "T"] [] "T" "U"]
      = countBoxesF [Box.mk "a" "A" "" [] [] "T" "T", Box.mk "c" "C" "" [] [] "T" "T"] := by
  have hnd : (boxIdsF [Box.mk "a" "A" "" [] [] "T" "T",
      Box.mk "c" "C" "" [] [] "T" "T"]).Nodup := by
    simp [boxIdsF, nodesF]
  have hok : StorageTracker.moveBox
      ⟨[Box.mk "a" "A" "" [] [] "T" "T", Box.mk "c" "C" "" [] [] "T" "T"], 7⟩
      "a" (some "c") ⟨9, "U"⟩
      = (.ok (Box.mk "a" "A" "" [] [] "T" "T"),
         ⟨[Box.mk "c" "C" "" [Box.mk "a" "A" "" [] [] "T" "T"] [] "T" "U"], 7⟩) := by
    simp [StorageTracker.moveBox, findBoxF, truthy, StorageTracker.deleteBox,
      eraseFirstBoxById, addBoxAtF]
  exact ⟨hnd, hok, (claim_C2 _ "a" (some "c") ⟨9, "U"⟩ _ _ hnd hok).1⟩

theorem jsOrQ_zero (q : Rat) : jsOrQ q 0 = q := by
  rw [jsOrQ]
  split <;> simp_all

theorem jsOrS_ne {s : String} (d : String) (h : s ≠ "") : jsOrS s d = s := by
  rw [jsOrS, if_neg h]

theorem Item.fromJSON_toJSON (it : Item) (clk : Clock)
    (h1 : it.createdAt ≠ "") (h2 : it.updatedAt ≠ "") :
    Item.fromJSON it.toJSON clk = it := by
  cases it with
  | mk i n d ba bp sa sp c u =>
    simp only [Item.fromJSON, Item.toJSON]
    simp only at h1 h2
    simp [jsOrQ_zero, jsOrS_ne _ h1, jsOrS_ne _ h2]

theorem ForestWF_boxes {b : Box} {rest : List Box} (h : ForestWF (b :: rest)) :
    ForestWF b.boxes := by
  intro b2 hb2
  apply h
  simp only [nodesF_cons, List.mem_cons, List.mem_append]
  exact Or.inr (Or.inl hb2)

theorem ForestWF_rest {b : Box} {rest : List Box} (h : ForestWF (b :: rest)) :
    ForestWF rest := by
  intro b2 hb2
  apply h
  simp only [nodesF_cons, List.mem_cons, List.mem_append]
  exact Or.inr (Or.inr hb2)

theorem ForestWF_head {b : Box} {rest : List Box} (h : ForestWF (b :: rest)) :
    (b.createdAt ≠ "" ∧ b.updatedAt ≠ "")
    ∧ ∀ it ∈ b.items, it.createdAt ≠ "" ∧ it.updatedAt ≠ "" := by
  apply h
  simp

theorem boxFromJSONF_toJSONF (clk : Clock) :
    ∀ (f : List Box), ForestWF f → boxFromJSONF (toJSONF f) clk = f := by
  intro f
  induction f using toJSONF.induct with
  | case1 =>
    intro _
    simp [toJSONF, boxFromJSONF]
  | case2 i n d bs its c u rest ihbs ihrest =>
    intro hwf
    rcases ForestWF_head hwf with ⟨⟨hc, hu⟩, hits⟩
    simp only [Box.createdAt_mk, Box.updatedAt_mk, Box.items_mk] at hc hu hits
    rw [toJSONF, boxFromJSONF]
    have hbs := ihbs (by simpa using ForestWF_boxes hwf)
    have hrest := ihrest (ForestWF_rest hwf)
    have hmap : List.map (fun j => Item.fromJSON j clk) (List.map Item.toJSON its) = its := by
      rw [List.map_map]
      have hcong : ∀ it ∈ its, ((fun j => Item.fromJSON j clk) ∘ Item.toJSON) it = id it := by
        intro it hit
        simpa using Item.fromJSON_toJSON it clk (hits it hit).1 (hits it hit).2
      rw [List.map_congr_left hcong, List.map_id]
    rw [hbs, hrest, hmap, jsOrS_ne _ hc, jsOrS_ne _ hu]

/-- Claim C4: serializing and deserializing a forest whose timestamps are
non-empty reproduces an observably identical forest (same structure, ids,
names, descriptions, financial fields and timestamps at every node), a
reload-then-resave yields the same document, and the derived fields of the
document (`averageSoldPrice`, `profitLoss`, `totalItems`) are recomputed on
load, never restored. -/
theorem claim_C4 (f : List Box) (clk : Clock) :
    (ForestWF f →
      boxFromJSONF (toJSONF f) clk = f
      ∧ toJSONF (boxFromJSONF (toJSONF f) clk) = toJSONF f)
    ∧ (∀ (j : ItemJSON) (a pl : Rat) (clk2 : Clock),
        Item.fromJSON { j with averageSoldPrice := a, profitLoss := pl } clk2
          = Item.fromJSON j clk2)
    ∧ (∀ (i n d : String) (bs : List BoxJSON) (its : List ItemJSON)
        (tot1 tot2 : Nat) (c u : String) (rest : List BoxJSON) (clk2 : Clock),
        boxFromJSONF (BoxJSON.mk i n d bs its tot1 c u :: rest) clk2
          = boxFromJSONF (BoxJSON.mk i n d bs its tot2 c u :: rest) clk2) := by
  refine ⟨?_, ?_, ?_⟩
  · intro hwf
    have h := boxFromJSONF_toJSONF clk f hwf
    exact ⟨h, by rw [h]⟩
  · intro j a pl clk2
    rfl
  · intro i n d bs its tot1 tot2 c u rest clk2
    rw [boxFromJSONF, boxFromJSONF]

/-- Claim C4 witness: a concrete one-box forest with an item round-trips
exactly. -/
theorem claim_C4_witness :
    ForestWF [Box.mk "a" "A" "" [] [⟨"i1", "Hammer", "", 1, 25, 0, 0, "T", "T"⟩] "T" "T"]
    ∧ boxFromJSONF
        (toJSONF [Box.mk "a" "A" "" [] [⟨"i1", "Hammer", "", 1, 25, 0, 0, "T", "T"⟩] "T" "T"])
        ⟨5, "U"⟩
      = [Box.mk "a" "A" "" [] [⟨"i1", "Hammer", "", 1, 25, 0, 0, "T", "T"⟩] "T" "T"] := by
  have hwf : ForestWF
      [Box.mk "a" "A" "" [] [⟨"i1", "Hammer", "", 1, 25, 0, 0, "T", "T"⟩] "T" "T"] := by
    intro b hb
    simp only [nodesF_cons, Box.boxes_mk, nodesF_nil, List.mem_cons, List.mem_append] at hb
    rcases hb with rfl | hb | hb
    · refine ⟨⟨by simp, by simp⟩, ?_⟩
      intro it hit
      simp only [Box.items_mk, List.mem_cons, List.not_mem_nil, or_false] at hit
      subst hit
      exact ⟨by simp, by simp⟩
    · cases hb
    · cases hb
  exact ⟨hwf, ((claim_C4 _ ⟨5, "U"⟩).1 hwf).1⟩

theorem digitChar_ne_dash (m : Nat) : Nat.digitChar m ≠ '-' := by
  by_cases h : m < 16
  · interval_cases m <;> decide
  · unfold Nat.digitChar
    rw [if_neg (by omega : ¬ (m = 0))]
    rw [if_neg (by omega : ¬ (m = 1))]
    rw [if_neg (by omega : ¬ (m = 2))]
    rw [if_neg (by omega : ¬ (m = 3))]
    rw [if_neg (by omega : ¬ (m = 4))]
    rw [if_neg (by omega : ¬ (m = 5))]
    rw [if_neg (by omega : ¬ (m = 6))]
    rw [if_neg (by omega : ¬ (m = 7))]
    rw [if_neg (by omega : ¬ (m = 8))]
    rw [if_neg (by omega : ¬ (m = 9))]
    rw [if_neg (by omega : ¬ (m = 0xa))]
    rw [if_neg (by omega : ¬ (m = 0xb))]
    rw [if_neg (by omega : ¬ (m = 0xc))]
    rw [if_neg (by omega : ¬ (m = 0xd))]
    rw [if_neg (by omega : ¬ (m = 0xe))]
    rw [if_neg (by omega : ¬ (m = 0xf))]
    decide

theorem digitChar_val (m : Nat) (h : m < 10) : (Nat.digitChar m).toNat - 48 = m := by
  interval_cases m <;> rfl

theorem toDigitsCore_ne_dash :
    ∀ (f n : Nat) (ds : List Char), (∀ c ∈ ds, c ≠ '-') →
    ∀ c ∈ Nat.toDigitsCore 10 f n ds, c ≠ '-' := by
  intro f
  induction f with
  | zero =>
    intro n ds hds c hc
    rw [Nat.toDigitsCore] at hc
    exact hds c hc
  | succ f ih =>
    intro n ds hds c hc
    rw [Nat.toDigitsCore] at hc
    by_cases h : n / 10 = 0
    · simp only [h, if_true] at hc
      rcases List.mem_cons.mp hc with rfl | hc2
      · exact digitChar_ne_dash _
      · exact hds c hc2
    · simp only [h, if_false] at hc
      refine ih (n / 10) (Nat.digitChar (n % 10) :: ds) ?_ c hc
      intro c2 hc2
      rcases List.mem_cons.mp hc2 with rfl | hc3
      · exact digitChar_ne_dash _
      · exact hds c2 hc3

theorem toDigitsCore_decode :
    ∀ (f n : Nat) (ds : List Char), n < f →
    decDigits (Nat.toDigitsCore 10 f n ds) = n * 10 ^ ds.length + decDigits ds := by
  intro f
  induction f with
  | zero =>
    intro n ds hn
    omega
  | succ f ih =>
    intro n ds hn
    rw [Nat.toDigitsCore]
    by_cases h : n / 10 = 0
    · simp only [h, if_true]
      rw [decDigits]
      have hlt : n < 10 := by omega
      have : n % 10 = n := Nat.mod_eq_of_lt hlt
      rw [this, digitChar_val n hlt]
    · simp only [h, if_false]
      have hdivlt : n / 10 < f := by
        have h1 : n / 10 < n := Nat.div_lt_self (by omega) (by omega)
        omega
      rw [ih (n / 10) (Nat.digitChar (n % 10) :: ds) hdivlt]
      rw [decDigits, List.length_cons, pow_succ]
      have hmod : n % 10 < 10 := Nat.mod_lt _ (by omega)
      rw [digitChar_val _ hmod]
      have hn10 : n = 10 * (n / 10) + n % 10 := (Nat.div_add_mod n 10).symm
      conv_rhs => rw [hn10]
      ring

theorem decDigits_toDigits (n : Nat) : decDigits (Nat.toDigits 10 n) = n := by
  rw [Nat.toDigits, toDigitsCore_decode (n + 1) n [] (Nat.lt_succ_self n)]
  simp [decDigits]

theorem repr_data_eq (n : Nat) : (Nat.repr n).data = Nat.toDigits 10 n := rfl

theorem natRepr_injective {n m : Nat} (h : (Nat.repr n).data = (Nat.repr m).data) :
    n = m := by
  rw [repr_data_eq, repr_data_eq] at h
  have h1 := decDigits_toDigits n
  have h2 := decDigits_toDigits m
  rw [h] at h1
  omega

theorem repr_ne_dash (n : Nat) : ∀ c ∈ (Nat.repr n).data, c ≠ '-' := by
  rw [repr_data_eq, Nat.toDigits]
  exact toDigitsCore_ne_dash (n + 1) n [] (by simp)

theorem dash_append_inj :
    ∀ (l1 : List Char) (r1 : List Char) (l2 r2 : List Char),
    (∀ c ∈ l1, c ≠ '-') → (∀ c ∈ l2, c ≠ '-') →
    l1 ++ '-' :: r1 = l2 ++ '-' :: r2 → l1 = l2 ∧ r1 = r2 := by
  intro l1
  induction l1 with
  | nil =>
    intro r1 l2 r2 _ hl2 h
    cases l2 with
    | nil =>
      simp only [List.nil_append] at h
      cases h
      exact ⟨rfl, rfl⟩
    | cons x l2t =>
      simp only [List.nil_append, List.cons_append] at h
      cases h
      exact absurd rfl (hl2 '-' (List.mem_cons_self _ _))
  | cons x l1t ih =>
    intro r1 l2 r2 hl1 hl2 h
    cases l2 with
    | nil =>
      simp only [List.nil_append, List.cons_append] at h
      cases h
      exact absurd rfl (hl1 '-' (List.mem_cons_self _ _))
    | cons y l2t =>
      simp only [List.cons_append] at h
      injection h with hxy htl
      subst hxy
      have h1 : ∀ c ∈ l1t, c ≠ '-' := fun c hc => hl1 c (List.mem_cons_of_mem _ hc)
      have h2 : ∀ c ∈ l2t, c ≠ '-' := fun c hc => hl2 c (List.mem_cons_of_mem _ hc)
      rcases ih r1 l2t r2 h1 h2 htl with ⟨he1, he2⟩
      exact ⟨by rw [he1], he2⟩

theorem generatedId_inj_counter {a b c d : Nat}
    (h : generatedId a b = generatedId c d) : b = d := by
  rw [generatedId, generatedId] at h
  have hd := congrArg String.data h
  simp only [String.data_append] at hd
  rw [List.append_assoc, List.append_assoc, List.singleton_append,
    List.singleton_append] at hd
  rcases dash_append_inj (Nat.repr a).data (Nat.repr b).data (Nat.repr c).data
    (Nat.repr d).data (repr_ne_dash a) (repr_ne_dash c) hd with ⟨_, h2⟩
  exact natRepr_injective h2

theorem createBox_nextId (t : StorageTracker) (n d : String) (p : Option String)
    (clk : Clock) : ((t.createBox n d p clk).2).nextId = t.nextId + 1 := by
  simp only [StorageTracker.createBox]
  split
  · split
    · rfl
    · split
      · rfl
      · rfl
  · rfl

theorem createItem_nextId (t : StorageTracker) (n d : String) (p : Option String)
    (clk : Clock) : ((t.createItem n d p clk).2).nextId = t.nextId + 1 := by
  simp only [StorageTracker.createItem]
  split
  · split
    · rfl
    · split
      · rfl
      · rfl
  · rfl

theorem createBox_ok_id {t : StorageTracker} {n d : String} {p : Option String}
    {clk : Clock} {b : Box} {t2 : StorageTracker}
    (h : t.createBox n d p clk = (.ok b, t2)) :
    b.id = generatedId clk.ms t.nextId := by
  simp only [StorageTracker.createBox] at h
  split at h
  · split at h
    · cases h
    · split at h
      · cases h
        simp
      · cases h
        simp
  · cases h
    simp

theorem createItem_ok_id {t : StorageTracker} {n d : String} {p : Option String}
    {clk : Clock} {it : Item} {t2 : StorageTracker}
    (h : t.createItem n d p clk = (.ok it, t2)) :
    it.id = generatedId clk.ms t.nextId := by
  simp only [StorageTracker.createItem] at h
  split at h
  · split at h
    · cases h
    · split at h
      · cases h
        simp [Item.new]
      · cases h
        simp [Item.new]
  · cases h

theorem runCreates_counters :
    ∀ (cmds : List (CreateCmd × Clock)) (t : StorageTracker) (s : String),
    s ∈ runCreates t cmds → ∃ ms k, t.nextId ≤ k ∧ s = generatedId ms k := by
  intro cmds
  induction cmds with
  | nil =>
    intro t s hs
    simp [runCreates] at hs
  | cons hd rest ih =>
    intro t s hs
    rcases hd with ⟨cmd, clk⟩
    cases cmd with
    | box n d p =>
      rw [runCreates] at hs
      rcases hr : t.createBox n d p clk with ⟨r1, t2⟩
      rw [hr] at hs
      have hnext : t2.nextId = t.nextId + 1 := by
        have := createBox_nextId t n d p clk
        rw [hr] at this
        exact this
      cases r1 with
      | ok b =>
        rcases List.mem_cons.mp hs with rfl | hs2
        · exact ⟨clk.ms, t.nextId, le_refl _, createBox_ok_id hr⟩
        · rcases ih t2 s hs2 with ⟨ms, k, hk, hgen⟩
          exact ⟨ms, k, by omega, hgen⟩
      | error e =>
        rcases ih t2 s hs with ⟨ms, k, hk, hgen⟩
        exact ⟨ms, k, by omega, hgen⟩
    | item n d p =>
      rw [runCreates] at hs
      rcases hr : t.createItem n d p clk with ⟨r1, t2⟩
      rw [hr] at hs
      have hnext : t2.nextId = t.nextId + 1 := by
        have := createItem_nextId t n d p clk
        rw [hr] at this
        exact this
      cases r1 with
      | ok b =>
        rcases List.mem_cons.mp hs with rfl | hs2
        · exact ⟨clk.ms, t.nextId, le_refl _, createItem_ok_id hr⟩
        · rcases ih t2 s hs2 with ⟨ms, k, hk, hgen⟩
          exact ⟨ms, k, by omega, hgen⟩
      | error e =>
        rcases ih t2 s hs with ⟨ms, k, hk, hgen⟩
        exact ⟨ms, k, by omega, hgen⟩

/-- Claim C8: for every sequence of create calls on one tracker, no two
successfully created entities (boxes or items) share an identifier, because
each id combines the clock reading with the strictly incremented per-tracker
counter. -/
theorem claim_C8 (cmds : List (CreateCmd × Clock)) (t : StorageTracker) :
    (runCreates t cmds).Nodup := by
  induction cmds generalizing t with
  | nil =>
    simp [runCreates]
  | cons hd rest ih =>
    rcases hd with ⟨cmd, clk⟩
    cases cmd with
    | box n d p =>
      rw [runCreates]
      rcases hr : t.createBox n d p clk with ⟨r1, t2⟩
      have hnext : t2.nextId = t.nextId + 1 := by
        have := createBox_nextId t n d p clk
        rw [hr] at this
        exact this
      cases r1 with
      | ok b =>
        refine List.Nodup.cons ?_ (ih t2)
        intro hmem
        rcases runCreates_counters rest t2 b.id hmem with ⟨ms, k, hk, hgen⟩
        have hb := createBox_ok_id hr
        rw [hb] at hgen
        have := generatedId_inj_counter hgen
        omega
      | error e => exact ih t2
    | item n d p =>
      rw [runCreates]
      rcases hr : t.createItem n d p clk with ⟨r1, t2⟩
      have hnext : t2.nextId = t.nextId + 1 := by
        have := createItem_nextId t n d p clk
        rw [hr] at this
        exact this
      cases r1 with
      | ok it =>
        refine List.Nodup.cons ?_ (ih t2)
        intro hmem
        rcases runCreates_counters rest t2 it.id hmem with ⟨ms, k, hk, hgen⟩
        have hb := createItem_ok_id hr
        rw [hb] at hgen
        have := generatedId_inj_counter hgen
        omega
      | error e => exact ih t2

theorem BoxChain_nil (f : List Box) : ¬ BoxChain f [] := by
  intro h
  rw [BoxChain] at h
  exact h

theorem BoxChain_singleton (f : List Box) (b : Box) :
    BoxChain f [b] ↔ b ∈ f := by
  rw [BoxChain]

theorem BoxChain_cons₂ (f : List Box) (a b2 : Box) (rest : List Box) :
    BoxChain f (a :: b2 :: rest) ↔ a ∈ f ∧ BoxChain a.boxes (b2 :: rest) := by
  rw [BoxChain]

theorem BoxChain_cons_of_ne_nil (f : List Box) (a : Box) (ch : List Box)
    (hch : ch ≠ []) :
    BoxChain f (a :: ch) ↔ a ∈ f ∧ BoxChain a.boxes ch := by
  cases ch with
  | nil => exact absurd rfl hch
  | cons b2 rest => exact BoxChain_cons₂ f a b2 rest

theorem BoxChain_cons_decomp (B0 : Box) (rest : List Box) (b : Box)
    (anc : List Box) :
    BoxChain (B0 :: rest) (anc ++ [b]) ↔
      (anc = [] ∧ b = B0)
      ∨ (∃ anc2, anc = B0 :: anc2 ∧ BoxChain B0.boxes (anc2 ++ [b]))
      ∨ BoxChain rest (anc ++ [b]) := by
  cases anc with
  | nil =>
    rw [List.nil_append, BoxChain_singleton, BoxChain_singleton]
    constructor
    · intro h
      rcases List.mem_cons.mp h with rfl | h2
      · exact Or.inl ⟨rfl, rfl⟩
      · exact Or.inr (Or.inr h2)
    · intro h
      rcases h with ⟨-, rfl⟩ | ⟨anc2, hanc, -⟩ | h3
      · exact List.mem_cons_self _ _
      · cases hanc
      · exact List.mem_cons_of_mem _ h3
  | cons a anc2 =>
    rw [List.cons_append,
      BoxChain_cons_of_ne_nil _ a _ (by simp),
      BoxChain_cons_of_ne_nil _ a _ (by simp)]
    constructor
    · intro ⟨hmem, hcont⟩
      rcases List.mem_cons.mp hmem with rfl | h2
      · exact Or.inr (Or.inl ⟨anc2, rfl, hcont⟩)
      · exact Or.inr (Or.inr ⟨h2, hcont⟩)
    · intro h
      rcases h with ⟨hfalse, -⟩ | ⟨anc3, hanc, hcont⟩ | ⟨hmem, hcont⟩
      · cases hfalse
      · injection hanc with h1 h2
        subst h1
        subst h2
        exact ⟨List.mem_cons_self _ _, hcont⟩
      · exact ⟨List.mem_cons_of_mem _ hmem, hcont⟩

theorem BoxChain_nil_forest (ch : List Box) : ¬ BoxChain [] ch := by
  intro h
  cases ch with
  | nil => exact BoxChain_nil [] h
  | cons a rest =>
    cases rest with
    | nil => simp [BoxChain_singleton] at h
    | cons b2 r2 =>
      rw [BoxChain_cons₂] at h
      simp at h

theorem searchRecF_boxes_mem (q : String) :
    ∀ (l : List Box) (pp : List SearchEntry) (res : SearchResults)
      (b : Box) (path : List SearchEntry),
    (⟨b, path⟩ : BoxHit) ∈ (searchRecF q l pp res).boxes ↔
      (⟨b, path⟩ : BoxHit) ∈ res.boxes
      ∨ ∃ anc, BoxChain l (anc ++ [b]) ∧ boxMatch q b = true
          ∧ path = pp ++ anc.map Box.entry := by
  intro l
  induction l using nodesF.induct with
  | case1 =>
    intro pp res b path
    rw [searchRecF]
    constructor
    · intro h
      exact Or.inl h
    · intro h
      rcases h with h | ⟨anc, hch, -, -⟩
      · exact h
      · exact absurd hch (BoxChain_nil_forest _)
  | case2 i n d bs its c u rest ihbs ihrest =>
    intro pp res b path
    rw [searchRecF]
    rw [ihrest, ihbs]
    rw [show (Box.mk i n d bs its c u).entry = (⟨i, n⟩ : SearchEntry) from rfl]
    by_cases hm : boxMatch q (Box.mk i n d bs its c u) = true
    · simp only [hm, if_true, List.mem_append, List.mem_singleton, BoxHit.mk.injEq]
      constructor
      · intro h
        rcases h with ((hres | ⟨rfl, rfl⟩) | ⟨anc, hch, hmb, hpath⟩) | ⟨anc, hch, hmb, hpath⟩
        · exact Or.inl hres
        · refine Or.inr ⟨[], ?_, hm, by simp⟩
          rw [List.nil_append, BoxChain_singleton]
          exact List.mem_cons_self _ _
        · refine Or.inr ⟨Box.mk i n d bs its c u :: anc, ?_, hmb, ?_⟩
          · rw [List.cons_append,
              BoxChain_cons_of_ne_nil _ _ _ (by simp)]
            exact ⟨List.mem_cons_self _ _, by simpa using hch⟩
          · rw [hpath]
            simp [Box.entry]
        · refine Or.inr ⟨anc, ?_, hmb, hpath⟩
          rw [BoxChain_cons_decomp]
          exact Or.inr (Or.inr hch)
      · intro h
        rcases h with hres | ⟨anc, hch, hmb, hpath⟩
        · exact Or.inl (Or.inl (Or.inl hres))
        · rw [BoxChain_cons_decomp] at hch
          rcases hch with ⟨rfl, rfl⟩ | ⟨anc2, rfl, hch2⟩ | hch3
          · exact Or.inl (Or.inl (Or.inr ⟨rfl, by simpa using hpath⟩))
          · refine Or.inl (Or.inr ⟨anc2, by simpa using hch2, hmb, ?_⟩)
            rw [hpath]
            simp [Box.entry]
          · exact Or.inr ⟨anc, hch3, hmb, hpath⟩
    · rw [if_neg hm]
      simp only [List.mem_append, List.mem_singleton, BoxHit.mk.injEq]
      constructor
      · intro h
        rcases h with (hres | ⟨anc, hch, hmb, hpath⟩) | ⟨anc, hch, hmb, hpath⟩
        · exact Or.inl hres
        · refine Or.inr ⟨Box.mk i n d bs its c u :: anc, ?_, hmb, ?_⟩
          · rw [List.cons_append,
              BoxChain_cons_of_ne_nil _ _ _ (by simp)]
            exact ⟨List.mem_cons_self _ _, by simpa using hch⟩
          · rw [hpath]
            simp [Box.entry]
        · refine Or.inr ⟨anc, ?_, hmb, hpath⟩
          rw [BoxChain_cons_decomp]
          exact Or.inr (Or.inr hch)
      · intro h
        rcases h with hres | ⟨anc, hch, hmb, hpath⟩
        · exact Or.inl (Or.inl hres)
        · rw [BoxChain_cons_decomp] at hch
          rcases hch with ⟨rfl, rfl⟩ | ⟨anc2, rfl, hch2⟩ | hch3
          · exact absurd hmb hm
          · refine Or.inl (Or.inr ⟨anc2, by simpa using hch2, hmb, ?_⟩)
            rw [hpath]
            simp [Box.entry]
          · exact Or.inr ⟨anc, hch3, hmb, hpath⟩

theorem searchRecF_items_mem (q : String) :
    ∀ (l : List Box) (pp : List SearchEntry) (res : SearchResults)
      (it : Item) (path : List SearchEntry),
    (⟨it, path⟩ : ItemHit) ∈ (searchRecF q l pp res).items ↔
      (⟨it, path⟩ : ItemHit) ∈ res.items
      ∨ ∃ anc pb, BoxChain l (anc ++ [pb]) ∧ it ∈ pb.items
          ∧ itemMatch q it = true ∧ path = pp ++ (anc ++ [pb]).map Box.entry := by
  intro l
  induction l using nodesF.induct with
  | case1 =>
    intro pp res it path
    rw [searchRecF]
    constructor
    · intro h
      exact Or.inl h
    · intro h
      rcases h with h | ⟨anc, pb, hch, -⟩
      · exact h
      · exact absurd hch (BoxChain_nil_forest _)
  | case2 i n d bs its c u rest ihbs ihrest =>
    intro pp res it path
    rw [searchRecF]
    rw [ihrest, ihbs]
    rw [show (Box.mk i n d bs its c u).entry = (⟨i, n⟩ : SearchEntry) from rfl]
    have hres1 : (if boxMatch q (Box.mk i n d bs its c u) = true then
        { boxes := res.boxes ++ [{ box := Box.mk i n d bs its c u, path := pp }],
          items := res.items }
      else res).items = res.items := by
      split <;> rfl
    rw [hres1]
    simp only [List.mem_append, List.mem_map, List.mem_filter, ItemHit.mk.injEq]
    constructor
    · intro h
      rcases h with ((hres | ⟨it0, ⟨hit0, hm0⟩, rfl, rfl⟩) | ⟨anc, pb, hch, hpb, hm2, hpath⟩)
        | ⟨anc, pb, hch, hpb, hm2, hpath⟩
      · exact Or.inl hres
      · refine Or.inr ⟨[], Box.mk i n d bs its c u, ?_, by simpa using hit0, hm0, by simp [Box.entry]⟩
        rw [List.nil_append, BoxChain_singleton]
        exact List.mem_cons_self _ _
      · refine Or.inr ⟨Box.mk i n d bs its c u :: anc, pb, ?_, hpb, hm2, ?_⟩
        · rw [List.cons_append,
            BoxChain_cons_of_ne_nil _ _ _ (by simp)]
          exact ⟨List.mem_cons_self _ _, by simpa using hch⟩
        · rw [hpath]
          simp [Box.entry]
      · refine Or.inr ⟨anc, pb, ?_, hpb, hm2, hpath⟩
        rw [BoxChain_cons_decomp]
        exact Or.inr (Or.inr hch)
    · intro h
      rcases h with hres | ⟨anc, pb, hch, hpb, hm2, hpath⟩
      · exact Or.inl (Or.inl (Or.inl hres))
      · rw [BoxChain_cons_decomp] at hch
        rcases hch with ⟨rfl, rfl⟩ | ⟨anc2, rfl, hch2⟩ | hch3
        · refine Or.inl (Or.inl (Or.inr ⟨it, ⟨by simpa using hpb, hm2⟩, rfl, ?_⟩))
          rw [hpath]
          simp [Box.entry]
        · refine Or.inl (Or.inr ⟨anc2, pb, by simpa using hch2, hpb, hm2, ?_⟩)
          rw [hpath]
          simp [Box.entry]
        · exact Or.inr ⟨anc, pb, hch3, hpb, hm2, hpath⟩

/-- Claim C7: `search` returns exactly the matching boxes, each paired with
the ordered root-to-parent sequence of its strict ancestors' `{id, name}`
entries (not including the matched box), and exactly the matching items,
each paired with the full ancestor chain from a root down to and including
the item's direct parent, in root-to-leaf order; an item nested under n
boxes therefore carries a path of length n. -/
theorem claim_C7 (t : StorageTracker) (query : String) :
    (∀ (b : Box) (path : List SearchEntry),
      (⟨b, path⟩ : BoxHit) ∈ (t.search query).boxes ↔
        ∃ anc, BoxChain t.rootBoxes (anc ++ [b])
          ∧ boxMatch (strLower query) b = true
          ∧ path = anc.map Box.entry)
    ∧ (∀ (it : Item) (path : List SearchEntry),
      (⟨it, path⟩ : ItemHit) ∈ (t.search query).items ↔
        ∃ anc pb, BoxChain t.rootBoxes (anc ++ [pb])
          ∧ it ∈ pb.items ∧ itemMatch (strLower query) it = true
          ∧ path = (anc ++ [pb]).map Box.entry) := by
  constructor
  · intro b path
    rw [StorageTracker.search, searchRecF_boxes_mem]
    simp
  · intro it path
    rw [StorageTracker.search, searchRecF_items_mem]
    simp

/-- Claim C7 witness: searching "ham" in a concrete two-level forest returns
the nested "Hammer" item with the full ancestor path of length 2. -/
theorem claim_C7_witness :
    (⟨⟨"i1", "Hammer", "", 0, 0, 0, 0, "T", "T"⟩,
      [⟨"a", "A"⟩, ⟨"b", "B"⟩]⟩ : ItemHit)
      ∈ (StorageTracker.search
          ⟨[Box.mk "a" "A" "" [Box.mk "b" "B" "" []
            [⟨"i1", "Hammer", "", 0, 0, 0, 0, "T", "T"⟩] "T" "T"] [] "T" "T"], 1⟩
          "ham").items := by
  apply ((claim_C7 ⟨[Box.mk "a" "A" "" [Box.mk "b" "B" "" []
      [⟨"i1", "Hammer", "", 0, 0, 0, 0, "T", "T"⟩] "T" "T"] [] "T" "T"], 1⟩ "ham").2 _ _).mpr
  refine ⟨[Box.mk "a" "A" "" [Box.mk "b" "B" "" []
      [⟨"i1", "Hammer", "", 0, 0, 0, 0, "T", "T"⟩] "T" "T"] [] "T" "T"],
    Box.mk "b" "B" "" [] [⟨"i1", "Hammer", "", 0, 0, 0, 0, "T", "T"⟩] "T" "T",
    ?_, ?_, ?_, ?_⟩
  · rw [List.cons_append, List.nil_append,
      BoxChain_cons_of_ne_nil _ _ _ (by simp)]
    refine ⟨by simp, ?_⟩
    rw [Box.boxes_mk, BoxChain_singleton]
    simp
  · simp
  · decide
  · simp [Box.entry]
